import Mathlib

/-!
Verification of the toydb SQL core against its specification.

The repository provides `src/error.rs` (embedded below as `ToyDB.Error`,
`ToyDB.display` and the boundary conversions `ToyDB.fromForeign`) and the SQL
test harness `src/sql/tests/sql.rs`.  The SQL engine itself (lexer, parser,
planner, optimizer, executor) is exercised by those tests but its sources are
not part of the provided tree, so those components are modelled from the
specification; each such definition carries a doc comment beginning
`Modelled from the spec:`.
-/

namespace ToyDB

/-- Embedded from src/error.rs: the `Error` enum.  Each variant keeps the
payload of the Rust variant (a message string where the Rust variant carries
one). -/
inductive Error where
  | Abort
  | Assert (s : String)
  | Config (s : String)
  | InvalidData (s : String)
  | Internal (s : String)
  | Parse (s : String)
  | ReadOnly
  | Serialization
  | Value (s : String)
deriving DecidableEq

/-- Embedded from src/error.rs: `impl Display for Error`.  `Config`,
`InvalidData`, `Internal`, `Parse` and `Value` render their message verbatim;
`Assert` prepends "assertion failed: "; the payload-free variants render fixed
strings. -/
def display : Error → String
  | .Config s => s
  | .InvalidData s => s
  | .Internal s => s
  | .Parse s => s
  | .Value s => s
  | .Assert s => "assertion failed: " ++ s
  | .Abort => "Operation aborted"
  | .Serialization => "Serialization failure, retry transaction"
  | .ReadOnly => "Read-only transaction"

/-- The tag (kind) of an `Error`, forgetting the payload. -/
inductive ErrorKind where
  | abort | assert | config | invalidData | internal | parse
  | readOnly | serialization | value
deriving DecidableEq

/-- The kind of each `Error` variant. -/
def Error.kind : Error → ErrorKind
  | .Abort => .abort
  | .Assert _ => .assert
  | .Config _ => .config
  | .InvalidData _ => .invalidData
  | .Internal _ => .internal
  | .Parse _ => .parse
  | .ReadOnly => .readOnly
  | .Serialization => .serialization
  | .Value _ => .value

/-- The foreign error types for which src/error.rs provides a
`From<...> for Error` implementation, each reduced to the message string that
the conversion renders via `to_string()`.  One constructor per `impl From`
block (plus the two serde `custom` constructors). -/
inductive Foreign where
  | bincode (msg : String)
  | serdeSer (msg : String)
  | serdeDe (msg : String)
  | configError (msg : String)
  | channelRecv (msg : String)
  | channelSend (msg : String)
  | channelTryRecv (msg : String)
  | channelTrySend (msg : String)
  | hdrCreation (msg : String)
  | hdrRecord (msg : String)
  | hexDecode (msg : String)
  | logParseLevel (msg : String)
  | logSetLogger (msg : String)
  | regexError (msg : String)
  | readline (msg : String)
  | sliceConvert (msg : String)
  | intConvert (msg : String)
  | ioError (msg : String)
  | addrParse (msg : String)
  | floatParse (msg : String)
  | intParse (msg : String)
  | utf8Decode (msg : String)
  | lockPoison (msg : String)
deriving DecidableEq

/-- Embedded from src/error.rs: the boundary mapping given by the
`impl From<...> for Error` blocks (and the serde `custom` impls), each of which
wraps `err.to_string()` in a fixed `Error` variant. -/
def fromForeign : Foreign → Error
  | .bincode m => .InvalidData m
  | .serdeSer m => .InvalidData m
  | .serdeDe m => .InvalidData m
  | .configError m => .Config m
  | .channelRecv m => .Internal m
  | .channelSend m => .Internal m
  | .channelTryRecv m => .Internal m
  | .channelTrySend m => .Internal m
  | .hdrCreation m => .Internal m
  | .hdrRecord m => .Internal m
  | .hexDecode m => .Internal m
  | .logParseLevel m => .Config m
  | .logSetLogger m => .Config m
  | .regexError m => .Value m
  | .readline m => .Internal m
  | .sliceConvert m => .Internal m
  | .intConvert m => .Value m
  | .ioError m => .Internal m
  | .addrParse m => .Internal m
  | .floatParse m => .Parse m
  | .intParse m => .Parse m
  | .utf8Decode m => .Internal m
  | .lockPoison m => .Internal m

/-- Decidable equality of fallible results, used to state and evaluate the
concrete scenarios. -/
instance exceptDecEq {ε α : Type} [DecidableEq ε] [DecidableEq α] :
    DecidableEq (Except ε α) := fun x y =>
  match x, y with
  | .ok a, .ok b =>
    if h : a = b then .isTrue (by rw [h]) else .isFalse (by simp [h])
  | .error e, .error f =>
    if h : e = f then .isTrue (by rw [h]) else .isFalse (by simp [h])
  | .ok _, .error _ => .isFalse (by simp)
  | .error _, .ok _ => .isFalse (by simp)

/-- Modelled from the spec (§3 Data model): the runtime datum type
`Value = Null | Boolean | Integer | Float | String`.  The engine sources are
not in the provided tree; floats are modelled as exact rationals since no
claim depends on binary floating-point rounding. -/
inductive Value where
  | null
  | boolean (b : Bool)
  | integer (i : Int)
  | float (f : Rat)
  | string (s : String)
deriving DecidableEq

/-- Modelled from the spec (§4.2): unary operators (sign, NOT, IS NULL). -/
inductive UnOp where
  | neg | not | isNull
deriving DecidableEq

/-- Modelled from the spec (§4.2): binary operators of the expression
grammar (logic, comparison, additive, multiplicative). -/
inductive BinOp where
  | and | or
  | eq | ne | lt | le | gt | ge
  | add | sub | mul | div | mod
deriving DecidableEq

/-- Modelled from the spec (§3): the plan-side expression tree, carrying
resolved column indices rather than names. -/
inductive Expr where
  | const (v : Value)
  | column (i : Nat)
  | unop (op : UnOp) (e : Expr)
  | binop (op : BinOp) (l r : Expr)
deriving DecidableEq

/-- Modelled from the spec (§4.5): read a value as a three-valued truth value
(`none` = Unknown).  Non-boolean, non-null operands of a logic operator are a
Value-kind fault. -/
def truthOf : Value → Except Error (Option Bool)
  | .null => .ok none
  | .boolean b => .ok (some b)
  | _ => .error (.Value "not a boolean value")

/-- Kleene three-valued AND. -/
def kleeneAnd : Option Bool → Option Bool → Option Bool
  | some false, _ => some false
  | _, some false => some false
  | some true, some true => some true
  | _, _ => none

/-- Kleene three-valued OR. -/
def kleeneOr : Option Bool → Option Bool → Option Bool
  | some true, _ => some true
  | _, some true => some true
  | some false, some false => some false
  | _, _ => none

/-- Back from three-valued truth to a `Value` (Unknown becomes NULL). -/
def ofTruth : Option Bool → Value
  | none => .null
  | some b => .boolean b

/-- A numeric value as an exact rational, if numeric. -/
def asRat : Value → Option Rat
  | .integer i => some (i : Rat)
  | .float f => some f
  | _ => none

/-- Modelled from the spec (§4.5): comparison of two non-NULL values of
compatible type; incompatible types are a Value-kind fault. -/
def valueCompare : Value → Value → Except Error Ordering
  | .boolean a, .boolean b => .ok (compare a b)
  | .string a, .string b => .ok (compare a b)
  | a, b =>
    match asRat a, asRat b with
    | some x, some y => .ok (compare x y)
    | _, _ => .error (.Value "cannot compare these values")

/-- Interpret a comparison operator over an `Ordering`. -/
def cmpHolds : BinOp → Ordering → Bool
  | .eq, o => o = Ordering.eq
  | .ne, o => o ≠ Ordering.eq
  | .lt, o => o = Ordering.lt
  | .le, o => o ≠ Ordering.gt
  | .gt, o => o = Ordering.gt
  | .ge, o => o ≠ Ordering.lt
  | _, _ => false

/-- Modelled from the spec (§4.5): evaluate a unary operator.  NULL propagates
through sign; NOT follows three-valued logic; IS NULL observes NULL directly. -/
def evalUnOpV : UnOp → Value → Except Error Value
  | .neg, .null => .ok .null
  | .neg, .integer i => .ok (.integer (-i))
  | .neg, .float f => .ok (.float (-f))
  | .neg, _ => .error (.Value "cannot negate this value")
  | .not, v => do
    let t ← truthOf v
    .ok (ofTruth (t.map (fun b => !b)))
  | .isNull, v => .ok (.boolean (v = Value.null))

/-- Modelled from the spec (§4.5): a NULL-propagating comparison: a NULL
operand yields Unknown/NULL, otherwise the two values are compared. -/
def compareOp (op : BinOp) (a b : Value) : Except Error Value :=
  if a = Value.null ∨ b = Value.null then .ok .null
  else do
    let o ← valueCompare a b
    .ok (.boolean (cmpHolds op o))

/-- Modelled from the spec (§4.5): NULL-propagating arithmetic with
Integer/Float promotion and a Value-kind error on division or modulo by zero
or on a type mismatch. -/
def arithOp (op : BinOp) (a b : Value) : Except Error Value :=
  if a = Value.null ∨ b = Value.null then .ok .null
  else
    match a, b with
    | .integer i, .integer j =>
      match op with
      | .add => .ok (.integer (i + j))
      | .sub => .ok (.integer (i - j))
      | .mul => .ok (.integer (i * j))
      | .div => if j = 0 then .error (.Value "division by zero")
                else .ok (.integer (Int.tdiv i j))
      | .mod => if j = 0 then .error (.Value "division by zero")
                else .ok (.integer (Int.tmod i j))
      | _ => .error (.Value "unexpected operator")
    | a, b =>
      match asRat a, asRat b with
      | some x, some y =>
        match op with
        | .add => .ok (.float (x + y))
        | .sub => .ok (.float (x - y))
        | .mul => .ok (.float (x * y))
        | .div => if y = 0 then .error (.Value "division by zero")
                  else .ok (.float (x / y))
        | _ => .error (.Value "unsupported float operation")
      | _, _ => .error (.Value "type mismatch in arithmetic")

/-- Modelled from the spec (§4.5): evaluate a binary operator: three-valued
logic for AND/OR, NULL-propagating comparisons (a NULL operand yields
Unknown/NULL), NULL-propagating arithmetic with Integer/Float promotion, and a
Value-kind error on division or modulo by zero or on a type mismatch. -/
def evalBinOpV : BinOp → Value → Value → Except Error Value
  | .and, a, b => do
    let x ← truthOf a
    let y ← truthOf b
    .ok (ofTruth (kleeneAnd x y))
  | .or, a, b => do
    let x ← truthOf a
    let y ← truthOf b
    .ok (ofTruth (kleeneOr x y))
  | .eq, a, b => compareOp .eq a b
  | .ne, a, b => compareOp .ne a b
  | .lt, a, b => compareOp .lt a b
  | .le, a, b => compareOp .le a b
  | .gt, a, b => compareOp .gt a b
  | .ge, a, b => compareOp .ge a b
  | .add, a, b => arithOp .add a b
  | .sub, a, b => arithOp .sub a b
  | .mul, a, b => arithOp .mul a b
  | .div, a, b => arithOp .div a b
  | .mod, a, b => arithOp .mod a b

/-- Modelled from the spec (§3): a row is an ordered sequence of values. -/
abbrev Row := List Value

/-- Modelled from the spec (§4.5): expression evaluation against a row.
Column references read the row positionally (planner-resolved indices). -/
def eval : Expr → Row → Except Error Value
  | .const v, _ => .ok v
  | .column i, row => .ok (row.getD i .null)
  | .unop op e, row => do
    let v ← eval e row
    evalUnOpV op v
  | .binop op l r, row => do
    let a ← eval l row
    let b ← eval r row
    evalBinOpV op a b

/-- Smart constructor used by constant folding: build a unary node, folding it
to a literal when the operand is a literal whose evaluation succeeds. -/
def mkUnop (op : UnOp) (e : Expr) : Expr :=
  match e with
  | .const v =>
    match evalUnOpV op v with
    | .ok w => .const w
    | .error _ => .unop op e
  | _ => .unop op e

/-- Smart constructor used by constant folding: build a binary node, folding it
to a literal when both operands are literals whose evaluation succeeds. -/
def mkBinop (op : BinOp) (l r : Expr) : Expr :=
  match l, r with
  | .const a, .const b =>
    match evalBinOpV op a b with
    | .ok w => .const w
    | .error _ => .binop op l r
  | _, _ => .binop op l r

/-- Modelled from the spec (§4.4): constant folding of literal
sub-expressions.  A sub-expression is folded exactly when it is built from
literals and its evaluation succeeds (a failing literal expression, e.g.
division by zero, is left in place so that the runtime error is preserved). -/
def foldExpr : Expr → Expr
  | .const v => .const v
  | .column i => .column i
  | .unop op e => mkUnop op (foldExpr e)
  | .binop op l r => mkBinop op (foldExpr l) (foldExpr r)

/-- The column indices referenced by an expression, in syntactic order. -/
def exprColumns : Expr → List Nat
  | .const _ => []
  | .column i => [i]
  | .unop _ e => exprColumns e
  | .binop _ l r => exprColumns l ++ exprColumns r

/-- Rename the column indices of an expression. -/
def remapExpr (f : Nat → Nat) : Expr → Expr
  | .const v => .const v
  | .column i => .column (f i)
  | .unop op e => .unop op (remapExpr f e)
  | .binop op l r => .binop op (remapExpr f l) (remapExpr f r)

/-- Index of the first occurrence of a natural number in a list (length if
absent). -/
def idxOf (i : Nat) : List Nat → Nat
  | [] => 0
  | j :: t => if i = j then 0 else idxOf i t + 1

/-- Insert a natural number into a sorted duplicate-free list, keeping it
sorted and duplicate-free. -/
def insertUniq (n : Nat) : List Nat → List Nat
  | [] => [n]
  | m :: t =>
    if n = m then m :: t
    else if n < m then n :: m :: t
    else m :: insertUniq n t

/-- The sorted, duplicate-free list of column indices referenced by a list of
expressions. -/
def usedColumns (es : List Expr) : List Nat :=
  ((es.map exprColumns).flatten).foldr insertUniq []

/-- Restrict a row to the given column positions (missing positions read as
NULL). -/
def extractRow (used : List Nat) (row : Row) : Row :=
  used.map (fun j => row.getD j .null)

/-- Modelled from the spec (§6): the stored state of one table, as consumed by
the executor: its primary-key column position and its rows in storage
iteration order. -/
structure Table where
  pkIndex : Nat
  rows : List Row
deriving DecidableEq

/-- Modelled from the spec (§6): the transaction context visible to the
executor, reduced to a name-indexed collection of tables. -/
abbrev Store := List (String × Table)

/-- Look a table up by name. -/
def lookupTable (s : Store) (t : String) : Option Table :=
  (s.find? (fun p => p.1 == t)).map (fun p => p.2)

/-- Replace a table's state in the store. -/
def updateTable (s : Store) (t : String) (tbl : Table) : Store :=
  s.map (fun p => if p.1 == t then (p.1, tbl) else p)

/-- Apply an optional column restriction to scanned rows. -/
def applyMask : Option (List Nat) → List Row → List Row
  | none, rows => rows
  | some used, rows => rows.map (extractRow used)

/-- Modelled from the spec (§4.5 Filter): keep exactly the upstream rows whose
predicate evaluates to True under three-valued logic; False and Unknown/NULL
are dropped; a non-boolean predicate value is a Value-kind fault. -/
def filterRows (p : Expr) : List Row → Except Error (List Row)
  | [] => .ok []
  | r :: rest => do
    let v ← eval p r
    match v with
    | .boolean true => do
      let tail ← filterRows p rest
      .ok (r :: tail)
    | .boolean false => filterRows p rest
    | .null => filterRows p rest
    | _ => .error (.Value "filter predicate must be a boolean")

/-- Modelled from the spec (§4.5 Projection): evaluate the expression list
against one row. -/
def evalRow (es : List Expr) (r : Row) : Except Error Row :=
  match es with
  | [] => .ok []
  | e :: tl => do
    let v ← eval e r
    let vs ← evalRow tl r
    .ok (v :: vs)

/-- Projection applied to every upstream row. -/
def projectRows (es : List Expr) : List Row → Except Error (List Row)
  | [] => .ok []
  | r :: rest => do
    let r' ← evalRow es r
    let tail ← projectRows es rest
    .ok (r' :: tail)

/-- Flip an ordering (for descending sort keys). -/
def flipOrd : Ordering → Ordering
  | .lt => .gt
  | .eq => .eq
  | .gt => .lt

/-- Modelled from the spec (§4.5 Order): the total order used on sort-key
values: NULL first, then Booleans (false before true), then numerics in
numeric order (Integer and Float compared exactly), then Strings.  The spec
leaves the placement of NULL open; NULL-first is fixed here. -/
def valueRank : Value → Nat
  | .null => 0
  | .boolean _ => 1
  | .integer _ => 2
  | .float _ => 2
  | .string _ => 3

/-- Total comparison on values, per `valueRank` with per-rank payload order. -/
def valueOrd (a b : Value) : Ordering :=
  match a, b with
  | .null, .null => .eq
  | .boolean x, .boolean y => compare x y
  | .string x, .string y => compare x y
  | .integer x, .integer y => compare x y
  | .integer x, .float y => compare (x : Rat) y
  | .float x, .integer y => compare x (y : Rat)
  | .float x, .float y => compare x y
  | _, _ => compare (valueRank a) (valueRank b)

/-- Lexicographic comparison of evaluated key lists under per-key
ascending/descending directions (`true` = ascending). -/
def keysOrd : List Bool → List Value → List Value → Ordering
  | d :: ds, a :: as_, b :: bs =>
    match (if d then valueOrd a b else flipOrd (valueOrd a b)) with
    | .eq => keysOrd ds as_ bs
    | o => o
  | _, _, _ => .eq

/-- Stable insertion into a sorted list (an element is placed before the first
existing element it is `le` to, hence after all earlier equal elements). -/
def insertSorted (le : α → α → Bool) (x : α) : List α → List α
  | [] => [x]
  | y :: t => if le x y then x :: y :: t else y :: insertSorted le x t

/-- Stable insertion sort. -/
def insertionSort (le : α → α → Bool) : List α → List α
  | [] => []
  | x :: t => insertSorted le x (insertionSort le t)

/-- Evaluate the ordering-key expressions against one row. -/
def evalKeys (ks : List (Expr × Bool)) (r : Row) : Except Error (List Value) :=
  match ks with
  | [] => .ok []
  | k :: tl => do
    let v ← eval k.1 r
    let vs ← evalKeys tl r
    .ok (v :: vs)

/-- Pair every row with its evaluated key list. -/
def keyRows (ks : List (Expr × Bool)) : List Row → Except Error (List (List Value × Row))
  | [] => .ok []
  | r :: rest => do
    let kv ← evalKeys ks r
    let tail ← keyRows ks rest
    .ok ((kv, r) :: tail)

/-- Modelled from the spec (§4.5 Order): drain the upstream rows, sort them by
the ordering-key expressions with per-key direction and a stable tie-break on
input order, and re-stream. -/
def sortRows (ks : List (Expr × Bool)) (rows : List Row) : Except Error (List Row) := do
  let keyed ← keyRows ks rows
  let dirs := ks.map (fun k => k.2)
  .ok ((insertionSort (fun a b => keysOrd dirs a.1 b.1 ≠ Ordering.gt) keyed).map (fun p => p.2))

/-- Modelled from the spec (§3): the logical plan tree for the read-side
operators exercised by the claims (Scan — with the optional column restriction
introduced by projection pruning —, the optimizer's empty-result node
`nothing`, the constant single-empty-row source used for FROM-less SELECTs,
Filter, Projection, Order, Limit and Offset).  NestedLoopJoin, Insert, Update
and the DDL nodes are not needed by any claim and are omitted; the Delete
statement is modelled at the `Command` level below. -/
inductive Plan where
  | scan (table : String) (columns : Option (List Nat))
  | nothing
  | single
  | filter (predicate : Expr) (source : Plan)
  | projection (expressions : List Expr) (source : Plan)
  | order (keys : List (Expr × Bool)) (source : Plan)
  | limit (n : Nat) (source : Plan)
  | offset (n : Nat) (source : Plan)
deriving DecidableEq

/-- Modelled from the spec (§4.5): the executor, lowering a plan to the
materialized sequence of rows it streams (read-only plans do not change the
store, so the store is a plain parameter).  Scan yields the stored rows in
storage iteration order; Filter keeps rows whose predicate is True; Projection
maps the expression list; Order drains and sorts; Limit keeps the first n
rows; Offset drops the first n rows. -/
def execute : Plan → Store → Except Error (List Row)
  | .scan t mask, s =>
    match lookupTable s t with
    | some tbl => .ok (applyMask mask tbl.rows)
    | none => .error (.Value ("table " ++ t ++ " does not exist"))
  | .nothing, _ => .ok []
  | .single, _ => .ok [[]]
  | .filter p c, s => do
    let rows ← execute c s
    filterRows p rows
  | .projection es c, s => do
    let rows ← execute c s
    projectRows es rows
  | .order ks c, s => do
    let rows ← execute c s
    sortRows ks rows
  | .limit n c, s => do
    let rows ← execute c s
    .ok (rows.take n)
  | .offset n c, s => do
    let rows ← execute c s
    .ok (rows.drop n)

/-- Modelled from the spec (§4.5): a top-level statement plan: either a pure
query or a Delete consuming a row source. -/
inductive Command where
  | query (plan : Plan)
  | delete (table : String) (source : Plan)
deriving DecidableEq

/-- Modelled from the spec (§4.5 Delete): consume the source rows, delete the
stored rows with matching primary keys, and report the affected-row count as
the sole payload. -/
def runCommand : Command → Store → Except Error (List Row × Store)
  | .query p, s => do
    let rows ← execute p s
    .ok (rows, s)
  | .delete t src, s => do
    let rows ← execute src s
    match lookupTable s t with
    | none => .error (.Value ("table " ++ t ++ " does not exist"))
    | some tbl =>
      let keys := rows.map (fun r => r.getD tbl.pkIndex .null)
      let remaining := tbl.rows.filter
        (fun r => !(keys.any (fun k => k == r.getD tbl.pkIndex .null)))
      .ok ([[.integer rows.length]], updateTable s t { tbl with rows := remaining })

/-- Modelled from the spec (§4.5 Limit): the pull-based Limit operator over a
materialized upstream: it stops pulling once n rows have been yielded.
Returns the yielded rows together with the number of upstream pulls performed
(a pull that observes end-of-stream counts as one pull). -/
def limitRun : Nat → List Row → List Row × Nat
  | 0, _ => ([], 0)
  | _ + 1, [] => ([], 1)
  | n + 1, r :: up =>
    let p := limitRun n up
    (r :: p.1, p.2 + 1)

/-- Modelled from the spec (§4.5 Offset/Limit): Offset discards the first m
pulls without yielding them, then the Limit phase yields at most n rows.
Returns the yielded rows and the total number of upstream pulls. -/
def offsetLimitRun (n : Nat) : Nat → List Row → List Row × Nat
  | 0, up => limitRun n up
  | _ + 1, [] => ([], 1)
  | m + 1, _ :: up =>
    let p := offsetLimitRun n m up
    (p.1, p.2 + 1)

/-- Modelled from the spec (§4.4): the constant-folding pass, mapping
`foldExpr` over every expression of the plan. -/
def constFold : Plan → Plan
  | .scan t mask => .scan t mask
  | .nothing => .nothing
  | .single => .single
  | .filter p c => .filter (foldExpr p) (constFold c)
  | .projection es c => .projection (es.map foldExpr) (constFold c)
  | .order ks c => .order (ks.map (fun k => (foldExpr k.1, k.2))) (constFold c)
  | .limit n c => .limit n (constFold c)
  | .offset n c => .offset n (constFold c)

/-- Modelled from the spec (§4.4): collapse a Filter whose predicate is
statically true into a pass-through (the node is removed), and a Filter whose
predicate is statically false or NULL into the empty-result node. -/
def collapseFilters : Plan → Plan
  | .scan t mask => .scan t mask
  | .nothing => .nothing
  | .single => .single
  | .filter p c =>
    match p with
    | .const (.boolean true) => collapseFilters c
    | .const (.boolean false) => .nothing
    | .const .null => .nothing
    | _ => .filter p (collapseFilters c)
  | .projection es c => .projection es (collapseFilters c)
  | .order ks c => .order ks (collapseFilters c)
  | .limit n c => .limit n (collapseFilters c)
  | .offset n c => .offset n (collapseFilters c)

/-- One step of projection pruning: when the (already rewritten) source is an
unrestricted Scan, restrict it to the columns the projection references and
remap the projection's column indices accordingly; otherwise rebuild the
Projection unchanged. -/
def pruneProjection (es : List Expr) : Plan → Plan
  | .scan t none =>
    .projection (es.map (remapExpr (fun i => idxOf i (usedColumns es))))
      (.scan t (some (usedColumns es)))
  | c => .projection es c

/-- Modelled from the spec (§4.4): projection pruning: when a Projection sits
directly on an unrestricted Scan, restrict the Scan to the columns the
projection references and remap the projection's column indices accordingly. -/
def pruneScans : Plan → Plan
  | .scan t mask => .scan t mask
  | .nothing => .nothing
  | .single => .single
  | .filter p c => .filter p (pruneScans c)
  | .projection es c => pruneProjection es (pruneScans c)
  | .order ks c => .order ks (pruneScans c)
  | .limit n c => .limit n (pruneScans c)
  | .offset n c => .offset n (pruneScans c)

/-- Modelled from the spec (§4.4): short-circuit a Limit of zero to the
empty-result node. -/
def dropLimitZero : Plan → Plan
  | .scan t mask => .scan t mask
  | .nothing => .nothing
  | .single => .single
  | .filter p c => .filter p (dropLimitZero c)
  | .projection es c => .projection es (dropLimitZero c)
  | .order ks c => .order ks (dropLimitZero c)
  | .limit 0 _ => .nothing
  | .limit (n + 1) c => .limit (n + 1) (dropLimitZero c)
  | .offset n c => .offset n (dropLimitZero c)

/-- Modelled from the spec (§4.4): the optimizer: the ordered sequence of
rewrite passes — constant folding, filter collapsing, projection pruning,
limit-zero short-circuiting. -/
def optimize (p : Plan) : Plan :=
  dropLimitZero (pruneScans (collapseFilters (constFold p)))

/-- No Filter node of the plan has a statically-true/false/NULL predicate
(the fixed points of `collapseFilters`). -/
def noCollapse : Plan → Bool
  | .scan _ _ => true
  | .nothing => true
  | .single => true
  | .filter p c =>
    (match p with
     | .const (.boolean _) => false
     | .const .null => false
     | _ => true) && noCollapse c
  | .projection _ c => noCollapse c
  | .order _ c => noCollapse c
  | .limit _ c => noCollapse c
  | .offset _ c => noCollapse c

/-- No Projection node of the plan sits directly on an unrestricted Scan
(the fixed points of `pruneScans`). -/
def noPrune : Plan → Bool
  | .scan _ _ => true
  | .nothing => true
  | .single => true
  | .filter _ c => noPrune c
  | .projection _ c =>
    (match c with
     | .scan _ none => false
     | _ => true) && noPrune c
  | .order _ c => noPrune c
  | .limit _ c => noPrune c
  | .offset _ c => noPrune c

/-- No Limit-zero node occurs in the plan (the fixed points of
`dropLimitZero`). -/
def noLimitZero : Plan → Bool
  | .scan _ _ => true
  | .nothing => true
  | .single => true
  | .filter _ c => noLimitZero c
  | .projection _ c => noLimitZero c
  | .order _ c => noLimitZero c
  | .limit 0 _ => false
  | .limit (_ + 1) c => noLimitZero c
  | .offset _ c => noLimitZero c

/-- Modelled from the spec (§3): the column data types. -/
inductive DataType where
  | integer | float | string | boolean
deriving DecidableEq

/-- Modelled from the spec (§3): a schema column: name, data type,
nullability, primary-key flag, optional foreign-key reference. -/
structure Column where
  name : String
  ctype : DataType
  nullable : Bool
  primaryKey : Bool
  references : Option String
deriving DecidableEq

/-- Modelled from the spec (§3): a table schema is its ordered column list. -/
abbrev Schema := List Column

/-- Modelled from the spec (§6): the schema lookup the planner consumes.  It
carries schemas only — no rows — so planning never reads a stored row. -/
abbrev Catalog := List (String × Schema)

/-- Look a schema up by table name. -/
def lookupSchema (c : Catalog) (t : String) : Option Schema :=
  (c.find? (fun p => p.1 == t)).map (fun p => p.2)

/-- Modelled from the spec (§3): the AST-side expression tree, with column
references by name (resolution to indices is the planner's job). -/
inductive AstExpr where
  | const (v : Value)
  | col (name : String)
  | unop (op : UnOp) (e : AstExpr)
  | binop (op : BinOp) (l r : AstExpr)
deriving DecidableEq

/-- Modelled from the spec (§3, §4.2): the SELECT statement AST: projection
list (`[]` stands for `*`) with optional aliases, optional FROM table,
optional WHERE predicate, ORDER BY keys (`true` = ascending), optional
LIMIT/OFFSET counts. -/
inductive Statement where
  | select (proj : List (AstExpr × Option String)) (tfrom : Option String)
      (wh : Option AstExpr) (ob : List (AstExpr × Bool))
      (lim : Option Nat) (off : Option Nat)
deriving DecidableEq

/-- Position of the named column in a schema, if present. -/
def findColumn (sch : Schema) (n : String) : Option (Nat × Column) :=
  match sch with
  | [] => none
  | c :: tl =>
    if c.name == n then some (0, c)
    else (findColumn tl n).map (fun p => (p.1 + 1, p.2))

/-- The static type of a value literal (`none` = the NULL type). -/
def valueType : Value → Option DataType
  | .null => none
  | .boolean _ => some .boolean
  | .integer _ => some .integer
  | .float _ => some .float
  | .string _ => some .string

/-- Typing of AND/OR: operands must be Boolean or NULL-typed. -/
def boolType : Option DataType → Option DataType → Except Error (Option DataType)
  | none, none => .ok none
  | none, some .boolean => .ok (some .boolean)
  | some .boolean, none => .ok (some .boolean)
  | some .boolean, some .boolean => .ok (some .boolean)
  | _, _ => .error (.Value "operand of a logic operator must be a boolean")

/-- Typing of comparisons: operands must be of comparable types (or NULL);
the result is Boolean. -/
def cmpType : Option DataType → Option DataType → Except Error (Option DataType)
  | none, _ => .ok (some .boolean)
  | _, none => .ok (some .boolean)
  | some a, some b =>
    if a = b then .ok (some .boolean)
    else
      match a, b with
      | .integer, .float => .ok (some .boolean)
      | .float, .integer => .ok (some .boolean)
      | _, _ => .error (.Value "cannot compare these types")

/-- Typing of arithmetic: numeric operands (or NULL), Integer/Float
promotion. -/
def numType : Option DataType → Option DataType → Except Error (Option DataType)
  | none, _ => .ok none
  | _, none => .ok none
  | some .integer, some .integer => .ok (some .integer)
  | some .integer, some .float => .ok (some .float)
  | some .float, some .integer => .ok (some .float)
  | some .float, some .float => .ok (some .float)
  | _, _ => .error (.Value "operand of an arithmetic operator must be numeric")

/-- Modelled from the spec (§4.3): the static type of an expression against a
schema (`none` = NULL-typed).  Unknown columns and operator/operand type
mismatches are Value-kind planning errors. -/
def astType (sch : Schema) : AstExpr → Except Error (Option DataType)
  | .const v => .ok (valueType v)
  | .col n =>
    match findColumn sch n with
    | some p => .ok (some p.2.ctype)
    | none => .error (.Value ("unknown column " ++ n))
  | .unop op e => do
    let τ ← astType sch e
    match op, τ with
    | .isNull, _ => .ok (some .boolean)
    | _, none => .ok none
    | .not, some .boolean => .ok (some .boolean)
    | .neg, some .integer => .ok (some .integer)
    | .neg, some .float => .ok (some .float)
    | _, _ => .error (.Value "operand has the wrong type")
  | .binop op l r => do
    let a ← astType sch l
    let b ← astType sch r
    match op with
    | .and => boolType a b
    | .or => boolType a b
    | .eq => cmpType a b
    | .ne => cmpType a b
    | .lt => cmpType a b
    | .le => cmpType a b
    | .gt => cmpType a b
    | .ge => cmpType a b
    | _ => numType a b

/-- Modelled from the spec (§4.3): resolve an AST expression's column names to
positions of the schema. -/
def resolveExpr (sch : Schema) : AstExpr → Except Error Expr
  | .const v => .ok (.const v)
  | .col n =>
    match findColumn sch n with
    | some p => .ok (.column p.1)
    | none => .error (.Value ("unknown column " ++ n))
  | .unop op e => do
    let e' ← resolveExpr sch e
    .ok (.unop op e')
  | .binop op l r => do
    let l' ← resolveExpr sch l
    let r' ← resolveExpr sch r
    .ok (.binop op l' r')

/-- Resolve a projection list. -/
def resolveExprs (sch : Schema) : List (AstExpr × Option String) → Except Error (List Expr)
  | [] => .ok []
  | p :: tl => do
    let e ← resolveExpr sch p.1
    let es ← resolveExprs sch tl
    .ok (e :: es)

/-- Resolve the ORDER BY key list. -/
def resolveKeys (sch : Schema) : List (AstExpr × Bool) → Except Error (List (Expr × Bool))
  | [] => .ok []
  | k :: tl => do
    let e ← resolveExpr sch k.1
    let ks ← resolveKeys sch tl
    .ok ((e, k.2) :: ks)

/-- Modelled from the spec (§4.3): `Plan::build`.  Resolves the FROM table
against the catalog (planning fails if it is unknown), verifies that the WHERE
predicate's static type is Boolean — failing with a Value-kind error otherwise,
so NULL-typed or numeric predicates are rejected during planning, before any
row is read (the catalog holds no rows) — resolves column references to
positions, and wraps the tree in Order/Offset/Limit nodes when present. -/
def build : Statement → Catalog → Except Error Plan
  | .select proj tfrom wh ob lim off, cat => do
    let sch ← match tfrom with
      | none => .ok ([] : Schema)
      | some t =>
        match lookupSchema cat t with
        | some sch => .ok sch
        | none => .error (.Value ("table " ++ t ++ " does not exist"))
    let base := match tfrom with
      | none => Plan.single
      | some t => Plan.scan t none
    let filtered ← match wh with
      | none => .ok base
      | some e => do
        let τ ← astType sch e
        if τ = some DataType.boolean then do
          let e' ← resolveExpr sch e
          .ok (Plan.filter e' base)
        else .error (.Value "filter predicate must be a boolean expression")
    let projected ← match proj with
      | [] => .ok filtered
      | _ => do
        let es ← resolveExprs sch proj
        .ok (Plan.projection es filtered)
    let ordered ← match ob with
      | [] => .ok projected
      | _ => do
        let ks ← resolveKeys sch ob
        .ok (Plan.order ks projected)
    let offsetted := match off with
      | none => ordered
      | some m => Plan.offset m ordered
    let limited := match lim with
      | none => offsetted
      | some n => Plan.limit n offsetted
    .ok limited

/-- Modelled from the spec (§3): a classified lexical unit: keyword (stored
upper-cased), bare identifier (stored lower-cased), numeric literal, string
literal, or operator/punctuation symbol. -/
inductive Token where
  | keyword (s : String)
  | ident (s : String)
  | num (s : String)
  | str (s : String)
  | sym (s : String)
deriving DecidableEq

/-- The SQL keywords recognized case-insensitively by the lexer. -/
def keywords : List String :=
  ["SELECT", "FROM", "WHERE", "AS", "AND", "OR", "NOT", "NULL", "TRUE",
   "FALSE", "IS", "ORDER", "BY", "ASC", "DESC", "LIMIT", "OFFSET", "INSERT",
   "INTO", "VALUES", "DELETE", "CREATE", "TABLE", "DROP", "UPDATE", "SET",
   "PRIMARY", "KEY", "REFERENCES", "INTEGER", "FLOAT", "STRING", "BOOLEAN",
   "DISTINCT", "LIKE"]

/-- Whitespace characters skipped by the lexer. -/
def isSpaceC (c : Char) : Bool :=
  c == ' ' || c == '\t' || c == '\n' || c == '\r'

/-- Characters allowed inside a bare identifier or keyword after the first. -/
def isWordC (c : Char) : Bool :=
  c.isAlpha || c.isDigit || c == '_'

/-- Scan a quoted literal up to the closing quote character, doubling as the
escape; fails with a Parse-kind error when the input ends before the quote is
closed.  Returns the literal's content and the remaining characters. -/
def lexQuoted (q : Char) : Nat → List Char → Except Error (List Char × List Char)
  | 0, _ => .error (.Internal "out of lexer fuel")
  | _ + 1, [] => .error (.Parse "unterminated string literal")
  | f + 1, c :: rest =>
    if c == q then
      match rest with
      | c2 :: rest2 =>
        if c2 == q then do
          let (s, r) ← lexQuoted q f rest2
          .ok (q :: s, r)
        else .ok ([], rest)
      | [] => .ok ([], [])
    else do
      let (s, r) ← lexQuoted q f rest
      .ok (c :: s, r)

/-- The multi-character operator at the head of the input, if any. -/
def twoCharSym : List Char → Option (String × List Char)
  | '>' :: '=' :: r => some (">=", r)
  | '<' :: '=' :: r => some ("<=", r)
  | '<' :: '>' :: r => some ("<>", r)
  | '!' :: '=' :: r => some ("!=", r)
  | '|' :: '|' :: r => some ("||", r)
  | _ => none

/-- The single-character operators/punctuation recognized by the lexer. -/
def oneCharSyms : List Char :=
  ['+', '-', '*', '/', '%', '(', ')', ',', '=', '>', '<', '.', '^', ';']

/-- Modelled from the spec (§4.1): the lexer loop.  Skips whitespace,
recognizes keywords case-insensitively, bare identifiers, single-quoted
string literals and double-quoted identifiers (with doubled-quote escapes),
integer and floating-point numeric literals (distinguished by `.`), and
multi-character operators by bounded lookahead; fails with a Parse-kind error
on an unterminated string, an invalid numeric literal, or an unrecognized
character.  Fuel is structural; with fuel exceeding the input length it is
never exhausted. -/
def lexLoop : Nat → List Char → Except Error (List Token)
  | 0, _ => .error (.Internal "out of lexer fuel")
  | _ + 1, [] => .ok []
  | f + 1, c :: rest =>
    if isSpaceC c then lexLoop f rest
    else if c.isDigit then
      let ds := (c :: rest).takeWhile Char.isDigit
      let r := (c :: rest).dropWhile Char.isDigit
      match r with
      | '.' :: r2 =>
        let fs := r2.takeWhile Char.isDigit
        if fs.isEmpty then .error (.Parse "invalid numeric literal")
        else do
          let ts ← lexLoop f (r2.dropWhile Char.isDigit)
          .ok (.num (String.mk (ds ++ '.' :: fs)) :: ts)
      | _ => do
        let ts ← lexLoop f r
        .ok (.num (String.mk ds) :: ts)
    else if c.isAlpha || c == '_' then
      let ws := (c :: rest).takeWhile isWordC
      let r := (c :: rest).dropWhile isWordC
      let up := String.mk (ws.map Char.toUpper)
      let tok := if keywords.contains up then Token.keyword up
                 else Token.ident (String.mk (ws.map Char.toLower))
      do
        let ts ← lexLoop f r
        .ok (tok :: ts)
    else if c == '\'' then do
      let (s, r) ← lexQuoted '\'' (f + 1) rest
      let ts ← lexLoop f r
      .ok (.str (String.mk s) :: ts)
    else if c == '"' then do
      let (s, r) ← lexQuoted '"' (f + 1) rest
      let ts ← lexLoop f r
      .ok (.ident (String.mk s) :: ts)
    else
      match twoCharSym (c :: rest) with
      | some (s, r) => do
        let ts ← lexLoop f r
        .ok (.sym s :: ts)
      | none =>
        if oneCharSyms.contains c then do
          let ts ← lexLoop f rest
          .ok (.sym (String.mk [c]) :: ts)
        else .error (.Parse ("unexpected character " ++ String.mk [c]))

/-- Modelled from the spec (§4.1): `tokenize(text)`. -/
def tokenize (sql : String) : Except Error (List Token) :=
  lexLoop (sql.length + 1) sql.data

/-- The numeric value of a digit string. -/
def natOfDigits (l : List Char) : Nat :=
  l.foldl (fun n c => n * 10 + (c.toNat - 48)) 0

/-- The value of a numeric literal token: an Integer unless it contains a
point, in which case an exact decimal Float. -/
def numValue (s : String) : Value :=
  let ip := s.data.takeWhile (fun c => c != '.')
  match s.data.dropWhile (fun c => c != '.') with
  | '.' :: fp =>
    .float (mkRat (natOfDigits ip * 10 ^ fp.length + natOfDigits fp) (10 ^ fp.length))
  | _ => .integer (natOfDigits s.data)

/-- The binary operator denoted by a token at a given precedence level
(0 = OR, 1 = AND, 3 = comparison, 4 = additive, 5 = multiplicative). -/
def matchOp : Nat → Token → Option BinOp
  | 0, .keyword w => if w = "OR" then some .or else none
  | 1, .keyword w => if w = "AND" then some .and else none
  | 3, .sym s =>
    if s = "=" then some .eq
    else if s = "!=" then some .ne
    else if s = "<>" then some .ne
    else if s = "<=" then some .le
    else if s = ">=" then some .ge
    else if s = "<" then some .lt
    else if s = ">" then some .gt
    else none
  | 4, .sym s => if s = "+" then some .add else if s = "-" then some .sub else none
  | 5, .sym s =>
    if s = "*" then some .mul
    else if s = "/" then some .div
    else if s = "%" then some .mod
    else none
  | _, _ => none

/-- The modes of the expression parser: descend one precedence level, iterate
a left-associative operator chain, or read a primary expression. -/
inductive PMode where
  | level (lvl : Nat)
  | loopAt (lvl : Nat) (acc : AstExpr)
  | primary
deriving DecidableEq

/-- Modelled from the spec (§4.2): precedence-climbing expression parsing,
lowest to highest: OR, AND, NOT, comparison, additive, multiplicative, unary
sign, postfix IS [NOT] NULL, primary (literal, column name, parenthesized
expression).  An empty input where an expression is required — as after a
trailing comma — is a Parse-kind error.  Structural fuel, never exhausted when
it exceeds the token count times the number of levels. -/
def parseE : Nat → PMode → List Token → Except Error (AstExpr × List Token)
  | 0, _, _ => .error (.Internal "out of parser fuel")
  | f + 1, .level 0, ts => do
    let (l, r) ← parseE f (.level 1) ts
    parseE f (.loopAt 0 l) r
  | f + 1, .level 1, ts => do
    let (l, r) ← parseE f (.level 2) ts
    parseE f (.loopAt 1 l) r
  | f + 1, .level 2, ts =>
    (match ts with
     | .keyword "NOT" :: r => do
       let (e, rest) ← parseE f (.level 2) r
       .ok (.unop .not e, rest)
     | _ => parseE f (.level 3) ts)
  | f + 1, .level 3, ts => do
    let (l, r) ← parseE f (.level 4) ts
    parseE f (.loopAt 3 l) r
  | f + 1, .level 4, ts => do
    let (l, r) ← parseE f (.level 5) ts
    parseE f (.loopAt 4 l) r
  | f + 1, .level 5, ts => do
    let (l, r) ← parseE f (.level 6) ts
    parseE f (.loopAt 5 l) r
  | f + 1, .level 6, ts =>
    (match ts with
     | .sym "-" :: r => do
       let (e, rest) ← parseE f (.level 6) r
       .ok (.unop .neg e, rest)
     | .sym "+" :: r => parseE f (.level 6) r
     | _ => parseE f (.level 7) ts)
  | f + 1, .level _, ts => do
    let (e, r) ← parseE f .primary ts
    (match r with
     | .keyword "IS" :: .keyword "NULL" :: r2 => .ok (.unop .isNull e, r2)
     | .keyword "IS" :: .keyword "NOT" :: .keyword "NULL" :: r2 =>
       .ok (.unop .not (.unop .isNull e), r2)
     | _ => .ok (e, r))
  | f + 1, .loopAt lvl acc, ts =>
    (match ts with
     | t :: r =>
       match matchOp lvl t with
       | some op => do
         let (rhs, rest) ← parseE f (.level (lvl + 1)) r
         parseE f (.loopAt lvl (.binop op acc rhs)) rest
       | none => .ok (acc, ts)
     | [] => .ok (acc, ts))
  | _ + 1, .primary, ts =>
    (match ts with
     | [] => .error (.Parse "unexpected end of input")
     | .num s :: r => .ok (.const (numValue s), r)
     | .str s :: r => .ok (.const (.string s), r)
     | .keyword "TRUE" :: r => .ok (.const (.boolean true), r)
     | .keyword "FALSE" :: r => .ok (.const (.boolean false), r)
     | .keyword "NULL" :: r => .ok (.const .null, r)
     | .ident n :: r => .ok (.col n, r)
     | _ :: _ => .error (.Parse "unexpected token, expected an expression"))

/-- Parse one full expression. -/
def parseExprT (f : Nat) (ts : List Token) : Except Error (AstExpr × List Token) :=
  parseE f (.level 0) ts

/-- Modelled from the spec (§4.2): the SELECT projection list
`expr [AS alias] (, expr [AS alias])*`.  After a comma another expression is
required, so a trailing comma before the end of the statement fails with a
Parse-kind error. -/
def parseProjList : Nat → List Token → Except Error (List (AstExpr × Option String) × List Token)
  | 0, _ => .error (.Internal "out of parser fuel")
  | f + 1, ts => do
    let (e, r) ← parseExprT (f + 1) ts
    let (alias_, r2) ←
      match r with
      | .keyword "AS" :: .ident a :: r2 => .ok (some a, r2)
      | .keyword "AS" :: _ => .error (.Parse "expected identifier after AS")
      | .ident a :: r2 => .ok (some a, r2)
      | _ => .ok (none, r)
    match r2 with
    | .sym "," :: r3 => do
      let (tl, rest) ← parseProjList f r3
      .ok ((e, alias_) :: tl, rest)
    | _ => .ok ([(e, alias_)], r2)

/-- Modelled from the spec (§4.2): the ORDER BY key list
`expr [ASC|DESC] (, ...)*`. -/
def parseKeyList : Nat → List Token → Except Error (List (AstExpr × Bool) × List Token)
  | 0, _ => .error (.Internal "out of parser fuel")
  | f + 1, ts => do
    let (e, r) ← parseExprT (f + 1) ts
    let (dir, r2) ←
      match r with
      | .keyword "ASC" :: r2 => Except.ok (true, r2)
      | .keyword "DESC" :: r2 => Except.ok (false, r2)
      | _ => Except.ok (true, r)
    match r2 with
    | .sym "," :: r3 => do
      let (tl, rest) ← parseKeyList f r3
      .ok ((e, dir) :: tl, rest)
    | _ => .ok ([(e, dir)], r2)

/-- Modelled from the spec (§4.2): the SELECT statement grammar after the
SELECT keyword: projection list (or `*`), optional FROM table, optional WHERE
predicate, optional ORDER BY keys, optional LIMIT and OFFSET counts; any
unconsumed trailing token is a Parse-kind error. -/
def parseSelect (f : Nat) (ts : List Token) : Except Error Statement := do
  let (proj, r) ←
    match ts with
    | .sym "*" :: r => .ok (([] : List (AstExpr × Option String)), r)
    | _ => parseProjList f ts
  let (tfrom, r2) ←
    match r with
    | .keyword "FROM" :: .ident t :: r2 => .ok (some t, r2)
    | .keyword "FROM" :: _ => .error (.Parse "expected table name after FROM")
    | _ => .ok (none, r)
  let (wh, r3) ←
    match r2 with
    | .keyword "WHERE" :: r3 => do
      let (e, r4) ← parseExprT f r3
      .ok (some e, r4)
    | _ => .ok (none, r2)
  let (ob, r5) ←
    match r3 with
    | .keyword "ORDER" :: .keyword "BY" :: r4 => parseKeyList f r4
    | .keyword "ORDER" :: _ => .error (.Parse "expected BY after ORDER")
    | _ => .ok (([] : List (AstExpr × Bool)), r3)
  let (lim, r6) ←
    match r5 with
    | .keyword "LIMIT" :: .num s :: r6 => .ok (some (natOfDigits s.data), r6)
    | .keyword "LIMIT" :: _ => .error (.Parse "expected count after LIMIT")
    | _ => .ok (none, r5)
  let (off, r7) ←
    match r6 with
    | .keyword "OFFSET" :: .num s :: r7 => .ok (some (natOfDigits s.data), r7)
    | .keyword "OFFSET" :: _ => .error (.Parse "expected count after OFFSET")
    | _ => .ok (none, r6)
  match r7 with
  | [] => .ok (.select proj tfrom wh ob lim off)
  | _ => .error (.Parse "unexpected token at end of statement")

/-- Modelled from the spec (§4.2): `parse(text) -> Statement` for the SELECT
statement family. -/
def parse (sql : String) : Except Error Statement := do
  let ts ← tokenize sql
  match ts with
  | .keyword "SELECT" :: r => parseSelect ((r.length + 2) * 16) r
  | _ => .error (.Parse "unexpected token, expected a statement keyword")

/-- Modelled from the spec (§2): the front half of the pipeline: text is
parsed, and only a successfully parsed statement is handed to the planner
(`Plan.build`); a parse failure propagates and the planner is never invoked,
exactly as in the test harness src/sql/tests/sql.rs. -/
def runStatement (sql : String) (cat : Catalog) : Except Error Plan := do
  let ast ← parse sql
  build ast cat

/-- The `genres` schema of the reference fixture in src/sql/tests/sql.rs. -/
def genresSchema : Schema :=
  [{ name := "id", ctype := .integer, nullable := false, primaryKey := true,
     references := none },
   { name := "name", ctype := .string, nullable := false, primaryKey := false,
     references := none }]

/-- The `movies` schema of the reference fixture in src/sql/tests/sql.rs. -/
def moviesSchema : Schema :=
  [{ name := "id", ctype := .integer, nullable := false, primaryKey := true,
     references := none },
   { name := "title", ctype := .string, nullable := false, primaryKey := false,
     references := none },
   { name := "genre_id", ctype := .integer, nullable := false,
     primaryKey := false, references := some "genres" },
   { name := "released", ctype := .integer, nullable := false,
     primaryKey := false, references := none },
   { name := "rating", ctype := .float, nullable := true, primaryKey := false,
     references := none },
   { name := "bluray", ctype := .boolean, nullable := true,
     primaryKey := false, references := none }]

/-- Fixture row (1, 'Stalker', 1, 1979, 8.2, FALSE). -/
def movieRow1 : Row :=
  [.integer 1, .string "Stalker", .integer 1, .integer 1979,
   .float (mkRat 41 5), .boolean false]

/-- Fixture row (2, 'Sicario', 2, 2015, 7.6, TRUE). -/
def movieRow2 : Row :=
  [.integer 2, .string "Sicario", .integer 2, .integer 2015,
   .float (mkRat 38 5), .boolean true]

/-- Fixture row (3, 'Primer', 1, 2004, 6.9, NULL). -/
def movieRow3 : Row :=
  [.integer 3, .string "Primer", .integer 1, .integer 2004,
   .float (mkRat 69 10), .null]

/-- Fixture row (4, 'Heat', 2, 1995, 8.2, TRUE). -/
def movieRow4 : Row :=
  [.integer 4, .string "Heat", .integer 2, .integer 1995,
   .float (mkRat 41 5), .boolean true]

/-- Fixture row (5, 'The Fountain', 1, 2006, 7.2, TRUE). -/
def movieRow5 : Row :=
  [.integer 5, .string "The Fountain", .integer 1, .integer 2006,
   .float (mkRat 36 5), .boolean true]

/-- The five movies fixture rows in insertion order. -/
def moviesRows : List Row :=
  [movieRow1, movieRow2, movieRow3, movieRow4, movieRow5]

/-- The reference store seeded as in the src/sql/tests/sql.rs setup. -/
def store0 : Store :=
  [("genres",
    { pkIndex := 0,
      rows := [[.integer 1, .string "Science Fiction"],
               [.integer 2, .string "Action"]] }),
   ("movies", { pkIndex := 0, rows := moviesRows })]

/-- The reference catalog matching `store0`. -/
def catalog0 : Catalog :=
  [("genres", genresSchema), ("movies", moviesSchema)]

/-- The plan for the predicate of `DELETE FROM movies WHERE released >= 2000`:
scan movies, keep the rows with released >= 2000 (column 3 of the schema). -/
def deleteSourcePlan : Plan :=
  .filter (.binop .ge (.column 3) (.const (.integer 2000))) (.scan "movies" none)

/-- The command for `DELETE FROM movies WHERE released >= 2000`. -/
def deleteCmd : Command := .delete "movies" deleteSourcePlan

/-- The plan for `SELECT * FROM movies ORDER BY bluray ASC, released DESC`:
bluray is column 5 and released column 3 of the schema. -/
def orderPlan : Plan :=
  .order [(.column 5, true), (.column 3, false)] (.scan "movies" none)

/-- The AST of `SELECT * FROM movies WHERE 1`. -/
def whereOneStmt : Statement :=
  .select [] (some "movies") (some (.const (.integer 1))) [] none none

/-- The store after `DELETE FROM movies WHERE released >= 2000`: only the two
movies released before 2000 remain, genres untouched. -/
def store0Deleted : Store :=
  [("genres",
    { pkIndex := 0,
      rows := [[.integer 1, .string "Science Fiction"],
               [.integer 2, .string "Action"]] }),
   ("movies", { pkIndex := 0, rows := [movieRow1, movieRow4] })]

/-! Basic lemmas about `Except` binds. -/

@[simp]
theorem okBind {ε α β : Type} (a : α) (f : α → Except ε β) :
    (Except.ok a >>= f) = f a := rfl

@[simp]
theorem errBind {ε α β : Type} (e : ε) (f : α → Except ε β) :
    ((Except.error e : Except ε α) >>= f) = .error e := rfl

/-- A bind that produced a success had a successful first component. -/
theorem bindOkInv {ε α β : Type} {x : Except ε α} {g : α → Except ε β}
    (h : ∃ o, (x >>= g) = .ok o) : ∃ a, x = .ok a := by
  cases hx : x with
  | ok a => exact ⟨a, rfl⟩
  | error e =>
    obtain ⟨o, ho⟩ := h
    rw [hx] at ho
    simp at ho

/-! Lemmas about constant folding of expressions. -/

/-- Folding a unary node preserves evaluation. -/
theorem eval_mkUnop (op : UnOp) (e : Expr) (r : Row) :
    eval (mkUnop op e) r = eval (.unop op e) r := by
  cases e with
  | const v =>
    cases h : evalUnOpV op v with
    | ok w => simp [mkUnop, h, eval]
    | error er => simp [mkUnop, h, eval]
  | column i => rfl
  | unop op2 e2 => rfl
  | binop op2 l r2 => rfl

/-- Folding a binary node preserves evaluation. -/
theorem eval_mkBinop (op : BinOp) (l r : Expr) (row : Row) :
    eval (mkBinop op l r) row = eval (.binop op l r) row := by
  cases l with
  | const a =>
    cases r with
    | const b =>
      cases h : evalBinOpV op a b with
      | ok w => simp [mkBinop, h, eval]
      | error er => simp [mkBinop, h, eval]
    | column i => rfl
    | unop op2 e2 => rfl
    | binop op2 l2 r2 => rfl
  | column i => cases r <;> rfl
  | unop op2 e2 => cases r <;> rfl
  | binop op2 l2 r2 => cases r <;> rfl

/-- Constant folding preserves evaluation. -/
theorem eval_foldExpr (e : Expr) (r : Row) : eval (foldExpr e) r = eval e r := by
  induction e with
  | const v => rfl
  | column i => rfl
  | unop op e ih =>
    rw [foldExpr, eval_mkUnop]
    simp [eval, ih]
  | binop op l r2 ihl ihr =>
    rw [foldExpr, eval_mkBinop]
    simp [eval, ihl, ihr]

/-- Folding commutes past the unary smart constructor. -/
theorem foldExpr_mkUnop (op : UnOp) (e : Expr) :
    foldExpr (mkUnop op e) = mkUnop op (foldExpr e) := by
  cases e with
  | const v =>
    cases h : evalUnOpV op v with
    | ok w => simp [mkUnop, h, foldExpr]
    | error er => simp [mkUnop, h, foldExpr]
  | column i => rfl
  | unop op2 e2 => rfl
  | binop op2 l r2 => rfl

/-- Folding commutes past the binary smart constructor. -/
theorem foldExpr_mkBinop (op : BinOp) (l r : Expr) :
    foldExpr (mkBinop op l r) = mkBinop op (foldExpr l) (foldExpr r) := by
  cases l with
  | const a =>
    cases r with
    | const b =>
      cases h : evalBinOpV op a b with
      | ok w => simp [mkBinop, h, foldExpr]
      | error er => simp [mkBinop, h, foldExpr]
    | column i => rfl
    | unop op2 e2 => rfl
    | binop op2 l2 r2 => rfl
  | column i => cases r <;> rfl
  | unop op2 e2 => cases r <;> rfl
  | binop op2 l2 r2 => cases r <;> rfl

/-- Constant folding of expressions is idempotent. -/
theorem foldExpr_idem (e : Expr) : foldExpr (foldExpr e) = foldExpr e := by
  induction e with
  | const v => rfl
  | column i => rfl
  | unop op e ih => rw [foldExpr, foldExpr_mkUnop, ih]
  | binop op l r ihl ihr => rw [foldExpr, foldExpr_mkBinop, ihl, ihr]

/-- The unary smart constructor references the same columns. -/
theorem exprColumns_mkUnop (op : UnOp) (e : Expr) :
    exprColumns (mkUnop op e) = exprColumns e := by
  cases e with
  | const v =>
    cases h : evalUnOpV op v with
    | ok w => simp [mkUnop, h, exprColumns]
    | error er => simp [mkUnop, h, exprColumns]
  | column i => rfl
  | unop op2 e2 => rfl
  | binop op2 l r2 => rfl

/-- The binary smart constructor references the same columns. -/
theorem exprColumns_mkBinop (op : BinOp) (l r : Expr) :
    exprColumns (mkBinop op l r) = exprColumns l ++ exprColumns r := by
  cases l with
  | const a =>
    cases r with
    | const b =>
      cases h : evalBinOpV op a b with
      | ok w => simp [mkBinop, h, exprColumns]
      | error er => simp [mkBinop, h, exprColumns]
    | column i => rfl
    | unop op2 e2 => rfl
    | binop op2 l2 r2 => rfl
  | column i => cases r <;> rfl
  | unop op2 e2 => cases r <;> rfl
  | binop op2 l2 r2 => cases r <;> rfl

/-- Constant folding references the same columns. -/
theorem exprColumns_foldExpr (e : Expr) :
    exprColumns (foldExpr e) = exprColumns e := by
  induction e with
  | const v => rfl
  | column i => rfl
  | unop op e ih => rw [foldExpr, exprColumns_mkUnop, ih, exprColumns]
  | binop op l r ihl ihr =>
    rw [foldExpr, exprColumns_mkBinop, ihl, ihr, exprColumns]

/-- Column renaming commutes past the unary smart constructor. -/
theorem remap_mkUnop (f : Nat → Nat) (op : UnOp) (e : Expr) :
    remapExpr f (mkUnop op e) = mkUnop op (remapExpr f e) := by
  cases e with
  | const v =>
    cases h : evalUnOpV op v with
    | ok w => simp [mkUnop, h, remapExpr]
    | error er => simp [mkUnop, h, remapExpr]
  | column i => rfl
  | unop op2 e2 => rfl
  | binop op2 l r2 => rfl

/-- Column renaming commutes past the binary smart constructor. -/
theorem remap_mkBinop (f : Nat → Nat) (op : BinOp) (l r : Expr) :
    remapExpr f (mkBinop op l r) = mkBinop op (remapExpr f l) (remapExpr f r) := by
  cases l with
  | const a =>
    cases r with
    | const b =>
      cases h : evalBinOpV op a b with
      | ok w => simp [mkBinop, h, remapExpr]
      | error er => simp [mkBinop, h, remapExpr]
    | column i => rfl
    | unop op2 e2 => rfl
    | binop op2 l2 r2 => rfl
  | column i => cases r <;> rfl
  | unop op2 e2 => cases r <;> rfl
  | binop op2 l2 r2 => cases r <;> rfl

/-- Constant folding commutes with column renaming. -/
theorem foldExpr_remap (f : Nat → Nat) (e : Expr) :
    foldExpr (remapExpr f e) = remapExpr f (foldExpr e) := by
  induction e with
  | const v => rfl
  | column i => rfl
  | unop op e ih => simp [remapExpr, foldExpr, remap_mkUnop, ih]
  | binop op l r ihl ihr =>
    simp [remapExpr, foldExpr, remap_mkBinop, ihl, ihr]

/-! Congruence of the row operators under pointwise-equal expressions. -/

/-- Filtering only depends on the predicate's evaluation. -/
theorem filterRows_congr {p q : Expr} (h : ∀ r, eval p r = eval q r) :
    ∀ rows, filterRows p rows = filterRows q rows := by
  intro rows
  induction rows with
  | nil => rfl
  | cons r rest ih => simp only [filterRows, h r, ih]

/-- Projection of one row only depends on the expressions' evaluation. -/
theorem evalRow_fold (es : List Expr) (r : Row) :
    evalRow (es.map foldExpr) r = evalRow es r := by
  induction es with
  | nil => rfl
  | cons e tl ih => simp only [List.map_cons, evalRow, eval_foldExpr, ih]

/-- Projection of a row list is unchanged by folding the expressions. -/
theorem projectRows_fold (es : List Expr) (rows : List Row) :
    projectRows (es.map foldExpr) rows = projectRows es rows := by
  induction rows with
  | nil => rfl
  | cons r rest ih => simp only [projectRows, evalRow_fold, ih]

/-- Key evaluation is unchanged by folding the key expressions. -/
theorem evalKeys_fold (ks : List (Expr × Bool)) (r : Row) :
    evalKeys (ks.map (fun k => (foldExpr k.1, k.2))) r = evalKeys ks r := by
  induction ks with
  | nil => rfl
  | cons k tl ih => simp only [List.map_cons, evalKeys, eval_foldExpr, ih]

/-- Keyed rows are unchanged by folding the key expressions. -/
theorem keyRows_fold (ks : List (Expr × Bool)) (rows : List Row) :
    keyRows (ks.map (fun k => (foldExpr k.1, k.2))) rows = keyRows ks rows := by
  induction rows with
  | nil => rfl
  | cons r rest ih => simp only [keyRows, evalKeys_fold, ih]

/-- The direction list is unchanged by folding the key expressions. -/
theorem dirs_fold (ks : List (Expr × Bool)) :
    (ks.map (fun k => (foldExpr k.1, k.2))).map (fun k => k.2)
      = ks.map (fun k => k.2) := by
  induction ks with
  | nil => rfl
  | cons k tl ih => simp only [List.map_cons, ih]

/-- Sorting is unchanged by folding the key expressions. -/
theorem sortRows_fold (ks : List (Expr × Bool)) (rows : List Row) :
    sortRows (ks.map (fun k => (foldExpr k.1, k.2))) rows = sortRows ks rows := by
  simp only [sortRows, keyRows_fold, dirs_fold]

/-- The constant-folding pass preserves execution exactly. -/
theorem execute_constFold (p : Plan) (s : Store) :
    execute (constFold p) s = execute p s := by
  induction p with
  | scan t mask => rfl
  | nothing => rfl
  | single => rfl
  | filter pr c ih =>
    simp only [constFold, execute, ih]
    cases hx : execute c s with
    | ok rows => simp [filterRows_congr (eval_foldExpr pr)]
    | error e => simp
  | projection es c ih =>
    simp only [constFold, execute, ih]
    cases hx : execute c s with
    | ok rows => simp [projectRows_fold]
    | error e => simp
  | order ks c ih =>
    simp only [constFold, execute, ih]
    cases hx : execute c s with
    | ok rows => simp [sortRows_fold]
    | error e => simp
  | limit n c ih => simp only [constFold, execute, ih]
  | offset n c ih => simp only [constFold, execute, ih]

/-! Lemmas about the filter-collapsing pass. -/

/-- A literal-TRUE filter passes every row. -/
theorem filterRows_true (rows : List Row) :
    filterRows (.const (.boolean true)) rows = .ok rows := by
  induction rows with
  | nil => rfl
  | cons r rest ih => simp [filterRows, eval, ih]

/-- A literal-FALSE filter drops every row. -/
theorem filterRows_false (rows : List Row) :
    filterRows (.const (.boolean false)) rows = .ok [] := by
  induction rows with
  | nil => rfl
  | cons r rest ih => simp [filterRows, eval, ih]

/-- A literal-NULL filter drops every row. -/
theorem filterRows_null (rows : List Row) :
    filterRows (.const .null) rows = .ok [] := by
  induction rows with
  | nil => rfl
  | cons r rest ih => simp [filterRows, eval, ih]

/-- The filter-collapsing pass preserves execution on plans whose execution
succeeds. -/
theorem execute_collapseFilters (p : Plan) (s : Store)
    (h : ∃ o, execute p s = .ok o) :
    execute (collapseFilters p) s = execute p s := by
  revert h
  induction p with
  | scan t mask => intro h; rfl
  | nothing => intro h; rfl
  | single => intro h; rfl
  | filter pr c ih =>
    intro h
    simp only [execute] at h
    obtain ⟨rows, hrows⟩ := bindOkInv h
    have ihc := ih ⟨rows, hrows⟩
    cases pr with
    | const v =>
      cases v with
      | null => simp [collapseFilters, execute, hrows, filterRows_null]
      | boolean b =>
        cases b with
        | true => simp [collapseFilters, execute, hrows, filterRows_true, ihc]
        | false => simp [collapseFilters, execute, hrows, filterRows_false]
      | integer i => simp only [collapseFilters, execute, ihc]
      | float f => simp only [collapseFilters, execute, ihc]
      | string s2 => simp only [collapseFilters, execute, ihc]
    | column i => simp only [collapseFilters, execute, ihc]
    | unop op e => simp only [collapseFilters, execute, ihc]
    | binop op l r => simp only [collapseFilters, execute, ihc]
  | projection es c ih =>
    intro h
    simp only [execute] at h
    obtain ⟨rows, hrows⟩ := bindOkInv h
    simp only [collapseFilters, execute, ih ⟨rows, hrows⟩]
  | order ks c ih =>
    intro h
    simp only [execute] at h
    obtain ⟨rows, hrows⟩ := bindOkInv h
    simp only [collapseFilters, execute, ih ⟨rows, hrows⟩]
  | limit n c ih =>
    intro h
    simp only [execute] at h
    obtain ⟨rows, hrows⟩ := bindOkInv h
    simp only [collapseFilters, execute, ih ⟨rows, hrows⟩]
  | offset n c ih =>
    intro h
    simp only [execute] at h
    obtain ⟨rows, hrows⟩ := bindOkInv h
    simp only [collapseFilters, execute, ih ⟨rows, hrows⟩]

/-! Lemmas about the projection-pruning pass. -/

/-- Membership in `insertUniq`. -/
theorem mem_insertUniq (i n : Nat) (l : List Nat) :
    i ∈ insertUniq n l ↔ i = n ∨ i ∈ l := by
  induction l with
  | nil => simp [insertUniq]
  | cons m t ih =>
    rw [insertUniq]
    split_ifs with h1 h2
    · subst h1
      simp only [List.mem_cons]
      tauto
    · simp only [List.mem_cons]
      try tauto
    · simp only [List.mem_cons, ih]
      tauto

/-- Folding `insertUniq` keeps all members. -/
theorem mem_foldr_insertUniq {i : Nat} :
    ∀ (l acc : List Nat), i ∈ l ∨ i ∈ acc → i ∈ l.foldr insertUniq acc := by
  intro l
  induction l with
  | nil =>
    intro acc h
    simpa using h
  | cons j t ih =>
    intro acc h
    simp only [List.foldr]
    rw [mem_insertUniq]
    rcases h with h | h
    · rcases List.mem_cons.mp h with h | h
      · left; exact h
      · right; exact ih acc (Or.inl h)
    · right; exact ih acc (Or.inr h)

/-- Every column referenced by a projection expression is in its used-column
list. -/
theorem mem_usedColumns {es : List Expr} {e : Expr} {i : Nat}
    (he : e ∈ es) (hi : i ∈ exprColumns e) : i ∈ usedColumns es := by
  apply mem_foldr_insertUniq
  left
  rw [List.mem_flatten]
  exact ⟨exprColumns e, List.mem_map_of_mem _ he, hi⟩

/-- Reading a mapped list at the index of a member recovers the member's
image. -/
theorem getD_map_idxOf {α : Type} {i : Nat} (g : Nat → α) (d : α) :
    ∀ (l : List Nat), i ∈ l → (l.map g).getD (idxOf i l) d = g i := by
  intro l
  induction l with
  | nil => intro h; simp at h
  | cons j t ih =>
    intro h
    by_cases hij : i = j
    · subst hij
      rw [idxOf, if_pos rfl, List.map_cons, List.getD_cons_zero]
    · have ht : i ∈ t := by
        rcases List.mem_cons.mp h with h1 | h1
        · exact absurd h1 hij
        · exact h1
      rw [idxOf, if_neg hij, List.map_cons, List.getD_cons_succ]
      exact ih ht

/-- Remapping into an extracted row preserves evaluation, provided every
referenced column is extracted. -/
theorem eval_remap {used : List Nat} {e : Expr}
    (hc : ∀ i ∈ exprColumns e, i ∈ used) (row : Row) :
    eval (remapExpr (fun i => idxOf i used) e) (extractRow used row)
      = eval e row := by
  induction e with
  | const v => rfl
  | column i =>
    have hm : i ∈ used := hc i (by simp [exprColumns])
    simp only [remapExpr, eval, extractRow]
    exact congrArg Except.ok (getD_map_idxOf _ _ used hm)
  | unop op e ih =>
    have ihe := ih (fun i hi => hc i (by simpa [exprColumns] using hi))
    simp only [remapExpr, eval, ihe]
  | binop op l r ihl ihr =>
    have hl := ihl fun i hi => hc i (by simp [exprColumns, List.mem_append, hi])
    have hr := ihr fun i hi => hc i (by simp [exprColumns, List.mem_append, hi])
    simp only [remapExpr, eval, hl, hr]

/-- Remapped projection of an extracted row equals the original projection. -/
theorem evalRow_remap {used : List Nat} {es : List Expr}
    (hc : ∀ e ∈ es, ∀ i ∈ exprColumns e, i ∈ used) (row : Row) :
    evalRow (es.map (remapExpr (fun i => idxOf i used))) (extractRow used row)
      = evalRow es row := by
  induction es with
  | nil => rfl
  | cons e tl ih =>
    have ihe := ih (fun e2 he2 => hc e2 (List.mem_cons_of_mem _ he2))
    simp only [List.map_cons, evalRow,
      eval_remap (hc e (List.mem_cons_self e tl)), ihe]

/-- Remapped projection over extracted rows equals the original projection. -/
theorem projectRows_remap {used : List Nat} {es : List Expr}
    (hc : ∀ e ∈ es, ∀ i ∈ exprColumns e, i ∈ used) (rows : List Row) :
    projectRows (es.map (remapExpr (fun i => idxOf i used)))
        (rows.map (extractRow used))
      = projectRows es rows := by
  induction rows with
  | nil => rfl
  | cons r rest ih =>
    simp only [List.map_cons, projectRows, evalRow_remap hc, ih]

/-- One pruning step preserves execution exactly. -/
theorem execute_pruneProjection (es : List Expr) (c : Plan) (s : Store) :
    execute (pruneProjection es c) s = execute (.projection es c) s := by
  cases c with
  | scan t mask =>
    cases mask with
    | none =>
      simp only [pruneProjection, execute]
      cases ht : lookupTable s t with
      | none => simp
      | some tbl =>
        simp only [applyMask, okBind]
        exact projectRows_remap (fun e he i hi => mem_usedColumns he hi) tbl.rows
    | some used0 => rfl
  | nothing => rfl
  | single => rfl
  | filter pr c2 => rfl
  | projection es2 c2 => rfl
  | order ks c2 => rfl
  | limit n c2 => rfl
  | offset n c2 => rfl

/-- The projection-pruning pass preserves execution exactly. -/
theorem execute_pruneScans (p : Plan) (s : Store) :
    execute (pruneScans p) s = execute p s := by
  induction p with
  | scan t mask => rfl
  | nothing => rfl
  | single => rfl
  | filter pr c ih => simp only [pruneScans, execute, ih]
  | projection es c ih =>
    simp only [pruneScans]
    rw [execute_pruneProjection]
    simp only [execute, ih]
  | order ks c ih => simp only [pruneScans, execute, ih]
  | limit n c ih => simp only [pruneScans, execute, ih]
  | offset n c ih => simp only [pruneScans, execute, ih]

/-! Lemmas about the limit-zero pass. -/

/-- The limit-zero pass preserves execution on plans whose execution
succeeds. -/
theorem execute_dropLimitZero (p : Plan) (s : Store)
    (h : ∃ o, execute p s = .ok o) :
    execute (dropLimitZero p) s = execute p s := by
  revert h
  induction p with
  | scan t mask => intro h; rfl
  | nothing => intro h; rfl
  | single => intro h; rfl
  | filter pr c ih =>
    intro h
    simp only [execute] at h
    obtain ⟨rows, hrows⟩ := bindOkInv h
    simp only [dropLimitZero, execute, ih ⟨rows, hrows⟩]
  | projection es c ih =>
    intro h
    simp only [execute] at h
    obtain ⟨rows, hrows⟩ := bindOkInv h
    simp only [dropLimitZero, execute, ih ⟨rows, hrows⟩]
  | order ks c ih =>
    intro h
    simp only [execute] at h
    obtain ⟨rows, hrows⟩ := bindOkInv h
    simp only [dropLimitZero, execute, ih ⟨rows, hrows⟩]
  | limit n c ih =>
    intro h
    simp only [execute] at h
    obtain ⟨rows, hrows⟩ := bindOkInv h
    cases n with
    | zero => simp [dropLimitZero, execute, hrows]
    | succ n2 => simp only [dropLimitZero, execute, ih ⟨rows, hrows⟩]
  | offset n c ih =>
    intro h
    simp only [execute] at h
    obtain ⟨rows, hrows⟩ := bindOkInv h
    simp only [dropLimitZero, execute, ih ⟨rows, hrows⟩]

/-- Semantics preservation of the whole optimizer on plans whose execution
succeeds (full equality of the result-row sequence, errors included). -/
theorem execute_optimize (p : Plan) (s : Store)
    (h : ∃ o, execute p s = .ok o) :
    execute (optimize p) s = execute p s := by
  have h1 : execute (constFold p) s = execute p s := execute_constFold p s
  have h2 : execute (collapseFilters (constFold p)) s = execute p s := by
    rw [execute_collapseFilters _ _ (h1 ▸ h), h1]
  have h3 : execute (pruneScans (collapseFilters (constFold p))) s
      = execute p s := by
    rw [execute_pruneScans, h2]
  have h4 : execute (optimize p) s = execute p s := by
    rw [optimize, execute_dropLimitZero _ _ (h3 ▸ h), h3]
  exact h4

/-! Idempotence machinery for the optimizer. -/

/-- Folding an already-folded expression list is a no-op. -/
theorem mapFold_idem (es : List Expr) :
    (es.map foldExpr).map foldExpr = es.map foldExpr := by
  induction es with
  | nil => rfl
  | cons e tl ih => simp only [List.map_cons, foldExpr_idem, ih]

/-- Folding an already-folded key list is a no-op. -/
theorem keysFold_idem (ks : List (Expr × Bool)) :
    ((ks.map (fun k => (foldExpr k.1, k.2))).map (fun k => (foldExpr k.1, k.2)))
      = ks.map (fun k => (foldExpr k.1, k.2)) := by
  induction ks with
  | nil => rfl
  | cons k tl ih => simp only [List.map_cons, foldExpr_idem, ih]

/-- The constant-folding pass is idempotent. -/
theorem constFold_idem (p : Plan) : constFold (constFold p) = constFold p := by
  induction p with
  | scan t mask => rfl
  | nothing => rfl
  | single => rfl
  | filter pr c ih => simp only [constFold, foldExpr_idem, ih]
  | projection es c ih => simp only [constFold, mapFold_idem, ih]
  | order ks c ih => simp only [constFold, keysFold_idem, ih]
  | limit n c ih => simp only [constFold, ih]
  | offset n c ih => simp only [constFold, ih]

/-- A list fixed by mapping `foldExpr` is pointwise fixed. -/
theorem foldFixed_of_mapFold :
    ∀ (es : List Expr), es.map foldExpr = es → ∀ e ∈ es, foldExpr e = e := by
  intro es
  induction es with
  | nil => intro _ e he; simp at he
  | cons e0 tl ih =>
    intro h e he
    rw [List.map_cons] at h
    injection h with h1 h2
    rcases List.mem_cons.mp he with he1 | he1
    · rw [he1]; exact h1
    · exact ih h2 e he1

/-- A key list fixed by folding is pointwise fixed on its expressions. -/
theorem keysFixed_of_mapFold :
    ∀ (ks : List (Expr × Bool)), ks.map (fun k => (foldExpr k.1, k.2)) = ks →
      ∀ k ∈ ks, foldExpr k.1 = k.1 := by
  intro ks
  induction ks with
  | nil => intro _ k hk; simp at hk
  | cons k0 tl ih =>
    intro h k hk
    rw [List.map_cons] at h
    injection h with h1 h2
    rcases List.mem_cons.mp hk with hk1 | hk1
    · rw [hk1, ← h1]
      simp [foldExpr_idem]
    · exact ih h2 k hk1

/-- Remapped expressions stay folded when the originals are folded. -/
theorem mapFold_remap_fixed (f : Nat → Nat) {es : List Expr}
    (h : ∀ e ∈ es, foldExpr e = e) :
    (es.map (remapExpr f)).map foldExpr = es.map (remapExpr f) := by
  induction es with
  | nil => rfl
  | cons e tl ih =>
    simp only [List.map_cons, List.cons.injEq]
    constructor
    · rw [foldExpr_remap, h e (List.mem_cons_self e tl)]
    · exact ih (fun e2 he2 => h e2 (List.mem_cons_of_mem _ he2))

/-- The filter-collapsing pass preserves constant-folded plans. -/
theorem constFold_fixed_collapse :
    ∀ (q : Plan), constFold q = q →
      constFold (collapseFilters q) = collapseFilters q := by
  intro q
  induction q with
  | scan t mask => intro _; rfl
  | nothing => intro _; rfl
  | single => intro _; rfl
  | filter pr c ih =>
    intro h
    rw [constFold] at h
    injection h with h1 h2
    cases pr with
    | const v =>
      cases v with
      | null => rfl
      | boolean b =>
        cases b with
        | true =>
          rw [collapseFilters]
          exact ih h2
        | false => rfl
      | integer i => simp [collapseFilters, constFold, h1, ih h2]
      | float f => simp [collapseFilters, constFold, h1, ih h2]
      | string s => simp [collapseFilters, constFold, h1, ih h2]
    | column i => simp [collapseFilters, constFold, h1, ih h2]
    | unop op e => simp [collapseFilters, constFold, h1, ih h2]
    | binop op l r => simp [collapseFilters, constFold, h1, ih h2]
  | projection es c ih =>
    intro h
    rw [constFold] at h
    injection h with h1 h2
    rw [collapseFilters, constFold, h1, ih h2]
  | order ks c ih =>
    intro h
    rw [constFold] at h
    injection h with h1 h2
    rw [collapseFilters, constFold, h1, ih h2]
  | limit n c ih =>
    intro h
    rw [constFold] at h
    injection h with h1 h2
    rw [collapseFilters, constFold, ih h2]
  | offset n c ih =>
    intro h
    rw [constFold] at h
    injection h with h1 h2
    rw [collapseFilters, constFold, ih h2]

/-- One pruning step preserves constant-folded plans. -/
theorem constFold_pruneProjection {es : List Expr} {c : Plan}
    (h1 : es.map foldExpr = es) (h2 : constFold c = c) :
    constFold (pruneProjection es c) = pruneProjection es c := by
  cases c with
  | scan t mask =>
    cases mask with
    | none =>
      simp only [pruneProjection, constFold]
      rw [mapFold_remap_fixed _ (foldFixed_of_mapFold es h1)]
    | some u =>
      simp only [pruneProjection]
      rw [constFold, h1, h2]
  | nothing =>
    simp only [pruneProjection]
    rw [constFold, h1, h2]
  | single =>
    simp only [pruneProjection]
    rw [constFold, h1, h2]
  | filter pr c2 =>
    simp only [pruneProjection]
    rw [constFold, h1, h2]
  | projection es2 c2 =>
    simp only [pruneProjection]
    rw [constFold, h1, h2]
  | order ks c2 =>
    simp only [pruneProjection]
    rw [constFold, h1, h2]
  | limit n c2 =>
    simp only [pruneProjection]
    rw [constFold, h1, h2]
  | offset n c2 =>
    simp only [pruneProjection]
    rw [constFold, h1, h2]

/-- The projection-pruning pass preserves constant-folded plans. -/
theorem constFold_fixed_prune :
    ∀ (q : Plan), constFold q = q →
      constFold (pruneScans q) = pruneScans q := by
  intro q
  induction q with
  | scan t mask => intro _; rfl
  | nothing => intro _; rfl
  | single => intro _; rfl
  | filter pr c ih =>
    intro h
    rw [constFold] at h
    injection h with h1 h2
    rw [pruneScans, constFold, h1, ih h2]
  | projection es c ih =>
    intro h
    rw [constFold] at h
    injection h with h1 h2
    rw [pruneScans]
    exact constFold_pruneProjection h1 (ih h2)
  | order ks c ih =>
    intro h
    rw [constFold] at h
    injection h with h1 h2
    rw [pruneScans, constFold, h1, ih h2]
  | limit n c ih =>
    intro h
    rw [constFold] at h
    injection h with h1 h2
    rw [pruneScans, constFold, ih h2]
  | offset n c ih =>
    intro h
    rw [constFold] at h
    injection h with h1 h2
    rw [pruneScans, constFold, ih h2]

/-- The limit-zero pass preserves constant-folded plans. -/
theorem constFold_fixed_drop :
    ∀ (q : Plan), constFold q = q →
      constFold (dropLimitZero q) = dropLimitZero q := by
  intro q
  induction q with
  | scan t mask => intro _; rfl
  | nothing => intro _; rfl
  | single => intro _; rfl
  | filter pr c ih =>
    intro h
    rw [constFold] at h
    injection h with h1 h2
    rw [dropLimitZero, constFold, h1, ih h2]
  | projection es c ih =>
    intro h
    rw [constFold] at h
    injection h with h1 h2
    rw [dropLimitZero, constFold, h1, ih h2]
  | order ks c ih =>
    intro h
    rw [constFold] at h
    injection h with h1 h2
    rw [dropLimitZero, constFold, h1, ih h2]
  | limit n c ih =>
    intro h
    rw [constFold] at h
    injection h with h1 h2
    cases n with
    | zero => rfl
    | succ n2 => rw [dropLimitZero, constFold, ih h2]
  | offset n c ih =>
    intro h
    rw [constFold] at h
    injection h with h1 h2
    rw [dropLimitZero, constFold, ih h2]

/-- The filter-collapsing pass leaves no collapsible filter. -/
theorem noCollapse_collapse (q : Plan) : noCollapse (collapseFilters q) = true := by
  induction q with
  | scan t mask => rfl
  | nothing => rfl
  | single => rfl
  | filter pr c ih =>
    cases pr with
    | const v =>
      cases v with
      | null => rfl
      | boolean b => cases b <;> simp [collapseFilters, noCollapse, ih]
      | integer i => simp [collapseFilters, noCollapse, ih]
      | float f => simp [collapseFilters, noCollapse, ih]
      | string s => simp [collapseFilters, noCollapse, ih]
    | column i => simp [collapseFilters, noCollapse, ih]
    | unop op e => simp [collapseFilters, noCollapse, ih]
    | binop op l r => simp [collapseFilters, noCollapse, ih]
  | projection es c ih => simp [collapseFilters, noCollapse, ih]
  | order ks c ih => simp [collapseFilters, noCollapse, ih]
  | limit n c ih => simp [collapseFilters, noCollapse, ih]
  | offset n c ih => simp [collapseFilters, noCollapse, ih]

/-- Plans without collapsible filters are fixed by the collapsing pass. -/
theorem collapse_of_noCollapse :
    ∀ (q : Plan), noCollapse q = true → collapseFilters q = q := by
  intro q
  induction q with
  | scan t mask => intro _; rfl
  | nothing => intro _; rfl
  | single => intro _; rfl
  | filter pr c ih =>
    intro h
    simp only [noCollapse, Bool.and_eq_true] at h
    obtain ⟨hg, hc⟩ := h
    cases pr with
    | const v =>
      cases v with
      | null => simp at hg
      | boolean b => simp at hg
      | integer i => simp [collapseFilters, ih hc]
      | float f => simp [collapseFilters, ih hc]
      | string s => simp [collapseFilters, ih hc]
    | column i => simp [collapseFilters, ih hc]
    | unop op e => simp [collapseFilters, ih hc]
    | binop op l r => simp [collapseFilters, ih hc]
  | projection es c ih =>
    intro h
    rw [noCollapse] at h
    rw [collapseFilters, ih h]
  | order ks c ih =>
    intro h
    rw [noCollapse] at h
    rw [collapseFilters, ih h]
  | limit n c ih =>
    intro h
    rw [noCollapse] at h
    rw [collapseFilters, ih h]
  | offset n c ih =>
    intro h
    rw [noCollapse] at h
    rw [collapseFilters, ih h]

/-- One pruning step creates no collapsible filter. -/
theorem noCollapse_pruneProjection {es : List Expr} {c : Plan}
    (h : noCollapse c = true) :
    noCollapse (pruneProjection es c) = true := by
  cases c with
  | scan t mask =>
    cases mask with
    | none => rfl
    | some u => simp [pruneProjection, noCollapse]
  | nothing => simp [pruneProjection, noCollapse]
  | single => simp [pruneProjection, noCollapse]
  | filter pr c2 => simpa [pruneProjection, noCollapse] using h
  | projection es2 c2 => simpa [pruneProjection, noCollapse] using h
  | order ks c2 => simpa [pruneProjection, noCollapse] using h
  | limit n c2 => simpa [pruneProjection, noCollapse] using h
  | offset n c2 => simpa [pruneProjection, noCollapse] using h

/-- The pruning pass creates no collapsible filter. -/
theorem noCollapse_prune :
    ∀ (q : Plan), noCollapse q = true → noCollapse (pruneScans q) = true := by
  intro q
  induction q with
  | scan t mask => intro _; rfl
  | nothing => intro _; rfl
  | single => intro _; rfl
  | filter pr c ih =>
    intro h
    simp only [noCollapse, Bool.and_eq_true] at h
    obtain ⟨hg, hc⟩ := h
    simp only [pruneScans, noCollapse, Bool.and_eq_true]
    exact ⟨hg, ih hc⟩
  | projection es c ih =>
    intro h
    rw [noCollapse] at h
    rw [pruneScans]
    exact noCollapse_pruneProjection (ih h)
  | order ks c ih =>
    intro h
    rw [noCollapse] at h
    rw [pruneScans, noCollapse]
    exact ih h
  | limit n c ih =>
    intro h
    rw [noCollapse] at h
    rw [pruneScans, noCollapse]
    exact ih h
  | offset n c ih =>
    intro h
    rw [noCollapse] at h
    rw [pruneScans, noCollapse]
    exact ih h

/-- The limit-zero pass creates no collapsible filter. -/
theorem noCollapse_drop :
    ∀ (q : Plan), noCollapse q = true → noCollapse (dropLimitZero q) = true := by
  intro q
  induction q with
  | scan t mask => intro _; rfl
  | nothing => intro _; rfl
  | single => intro _; rfl
  | filter pr c ih =>
    intro h
    simp only [noCollapse, Bool.and_eq_true] at h
    obtain ⟨hg, hc⟩ := h
    simp only [dropLimitZero, noCollapse, Bool.and_eq_true]
    exact ⟨hg, ih hc⟩
  | projection es c ih =>
    intro h
    rw [noCollapse] at h
    rw [dropLimitZero, noCollapse]
    exact ih h
  | order ks c ih =>
    intro h
    rw [noCollapse] at h
    rw [dropLimitZero, noCollapse]
    exact ih h
  | limit n c ih =>
    intro h
    rw [noCollapse] at h
    cases n with
    | zero => rfl
    | succ n2 =>
      rw [dropLimitZero, noCollapse]
      exact ih h
  | offset n c ih =>
    intro h
    rw [noCollapse] at h
    rw [dropLimitZero, noCollapse]
    exact ih h

/-- One pruning step leaves no prunable projection. -/
theorem noPrune_pruneProjection {es : List Expr} {c : Plan}
    (h : noPrune c = true) :
    noPrune (pruneProjection es c) = true := by
  cases c with
  | scan t mask =>
    cases mask with
    | none => rfl
    | some u => rfl
  | nothing => simp [pruneProjection, noPrune]
  | single => simp [pruneProjection, noPrune]
  | filter pr c2 => simpa [pruneProjection, noPrune] using h
  | projection es2 c2 => simpa [pruneProjection, noPrune] using h
  | order ks c2 => simpa [pruneProjection, noPrune] using h
  | limit n c2 => simpa [pruneProjection, noPrune] using h
  | offset n c2 => simpa [pruneProjection, noPrune] using h

/-- The pruning pass leaves no prunable projection. -/
theorem noPrune_prune (q : Plan) : noPrune (pruneScans q) = true := by
  induction q with
  | scan t mask => rfl
  | nothing => rfl
  | single => rfl
  | filter pr c ih => simpa [pruneScans, noPrune] using ih
  | projection es c ih =>
    rw [pruneScans]
    exact noPrune_pruneProjection ih
  | order ks c ih => simpa [pruneScans, noPrune] using ih
  | limit n c ih => simpa [pruneScans, noPrune] using ih
  | offset n c ih => simpa [pruneScans, noPrune] using ih

/-- Plans without prunable projections are fixed by the pruning pass. -/
theorem prune_of_noPrune :
    ∀ (q : Plan), noPrune q = true → pruneScans q = q := by
  intro q
  induction q with
  | scan t mask => intro _; rfl
  | nothing => intro _; rfl
  | single => intro _; rfl
  | filter pr c ih =>
    intro h
    rw [noPrune] at h
    rw [pruneScans, ih h]
  | projection es c ih =>
    intro h
    simp only [noPrune, Bool.and_eq_true] at h
    obtain ⟨hg, hc⟩ := h
    rw [pruneScans, ih hc]
    cases c with
    | scan t mask =>
      cases mask with
      | none => simp at hg
      | some u => rfl
    | nothing => rfl
    | single => rfl
    | filter pr c2 => rfl
    | projection es2 c2 => rfl
    | order ks c2 => rfl
    | limit n c2 => rfl
    | offset n c2 => rfl
  | order ks c ih =>
    intro h
    rw [noPrune] at h
    rw [pruneScans, ih h]
  | limit n c ih =>
    intro h
    rw [noPrune] at h
    rw [pruneScans, ih h]
  | offset n c ih =>
    intro h
    rw [noPrune] at h
    rw [pruneScans, ih h]

/-- The limit-zero pass only produces a Scan when given that Scan. -/
theorem dropLimitZero_scan_inv (c : Plan) {t : String} {m : Option (List Nat)}
    (h : dropLimitZero c = .scan t m) : c = .scan t m := by
  cases c with
  | scan t2 mask => exact h
  | nothing => simp [dropLimitZero] at h
  | single => simp [dropLimitZero] at h
  | filter pr c2 => simp [dropLimitZero] at h
  | projection es c2 => simp [dropLimitZero] at h
  | order ks c2 => simp [dropLimitZero] at h
  | limit n c2 =>
    cases n with
    | zero => simp [dropLimitZero] at h
    | succ n2 => simp [dropLimitZero] at h
  | offset n c2 => simp [dropLimitZero] at h

/-- The limit-zero pass creates no prunable projection. -/
theorem noPrune_drop :
    ∀ (q : Plan), noPrune q = true → noPrune (dropLimitZero q) = true := by
  intro q
  induction q with
  | scan t mask => intro _; rfl
  | nothing => intro _; rfl
  | single => intro _; rfl
  | filter pr c ih =>
    intro h
    rw [noPrune] at h
    rw [dropLimitZero, noPrune]
    exact ih h
  | projection es c ih =>
    intro h
    simp only [noPrune, Bool.and_eq_true] at h
    obtain ⟨hg, hc⟩ := h
    simp only [dropLimitZero, noPrune, Bool.and_eq_true]
    refine ⟨?_, ih hc⟩
    cases hd : dropLimitZero c with
    | scan t m =>
      have hcs := dropLimitZero_scan_inv c hd
      cases m with
      | none =>
        rw [hcs] at hg
        simp at hg
      | some u => rfl
    | nothing => rfl
    | single => rfl
    | filter pr c2 => rfl
    | projection es2 c2 => rfl
    | order ks c2 => rfl
    | limit n c2 => rfl
    | offset n c2 => rfl
  | order ks c ih =>
    intro h
    rw [noPrune] at h
    rw [dropLimitZero, noPrune]
    exact ih h
  | limit n c ih =>
    intro h
    rw [noPrune] at h
    cases n with
    | zero => rfl
    | succ n2 =>
      rw [dropLimitZero, noPrune]
      exact ih h
  | offset n c ih =>
    intro h
    rw [noPrune] at h
    rw [dropLimitZero, noPrune]
    exact ih h

/-- The limit-zero pass leaves no Limit-zero node. -/
theorem noLimitZero_drop (q : Plan) : noLimitZero (dropLimitZero q) = true := by
  induction q with
  | scan t mask => rfl
  | nothing => rfl
  | single => rfl
  | filter pr c ih => simpa [dropLimitZero, noLimitZero] using ih
  | projection es c ih => simpa [dropLimitZero, noLimitZero] using ih
  | order ks c ih => simpa [dropLimitZero, noLimitZero] using ih
  | limit n c ih =>
    cases n with
    | zero => rfl
    | succ n2 => simpa [dropLimitZero, noLimitZero] using ih
  | offset n c ih => simpa [dropLimitZero, noLimitZero] using ih

/-- Plans without Limit-zero nodes are fixed by the limit-zero pass. -/
theorem drop_of_noLimitZero :
    ∀ (q : Plan), noLimitZero q = true → dropLimitZero q = q := by
  intro q
  induction q with
  | scan t mask => intro _; rfl
  | nothing => intro _; rfl
  | single => intro _; rfl
  | filter pr c ih =>
    intro h
    rw [noLimitZero] at h
    rw [dropLimitZero, ih h]
  | projection es c ih =>
    intro h
    rw [noLimitZero] at h
    rw [dropLimitZero, ih h]
  | order ks c ih =>
    intro h
    rw [noLimitZero] at h
    rw [dropLimitZero, ih h]
  | limit n c ih =>
    intro h
    cases n with
    | zero => rw [noLimitZero] at h; exact absurd h (by simp)
    | succ n2 =>
      rw [noLimitZero] at h
      rw [dropLimitZero, ih h]
  | offset n c ih =>
    intro h
    rw [noLimitZero] at h
    rw [dropLimitZero, ih h]

/-- Idempotence of the whole optimizer. -/
theorem optimize_idem (p : Plan) : optimize (optimize p) = optimize p := by
  have cFix1 : constFold (collapseFilters (constFold p))
      = collapseFilters (constFold p) :=
    constFold_fixed_collapse _ (constFold_idem p)
  have cFix2 : constFold (pruneScans (collapseFilters (constFold p)))
      = pruneScans (collapseFilters (constFold p)) :=
    constFold_fixed_prune _ cFix1
  have cFix3 : constFold (optimize p) = optimize p := by
    rw [optimize]
    exact constFold_fixed_drop _ cFix2
  have fFix2 : noCollapse (pruneScans (collapseFilters (constFold p))) = true :=
    noCollapse_prune _ (noCollapse_collapse _)
  have fFix3 : noCollapse (optimize p) = true := by
    rw [optimize]
    exact noCollapse_drop _ fFix2
  have rFix3 : noPrune (optimize p) = true := by
    rw [optimize]
    exact noPrune_drop _ (noPrune_prune _)
  have lFix3 : noLimitZero (optimize p) = true := by
    rw [optimize]
    exact noLimitZero_drop _
  calc optimize (optimize p)
      = dropLimitZero (pruneScans (collapseFilters (constFold (optimize p)))) :=
        rfl
    _ = dropLimitZero (pruneScans (collapseFilters (optimize p))) := by
        rw [cFix3]
    _ = dropLimitZero (pruneScans (optimize p)) := by
        rw [collapse_of_noCollapse _ fFix3]
    _ = dropLimitZero (optimize p) := by
        rw [prune_of_noPrune _ rFix3]
    _ = optimize p := drop_of_noLimitZero _ lFix3

/-! Support lemmas for the filter, limit/offset and planner claims. -/

/-- Characterization of filtering under three-valued predicates: exactly the
rows whose predicate evaluates to True pass. -/
theorem filterRows_3vl {p : Expr} :
    ∀ rows : List Row,
      (∀ r ∈ rows, eval p r = .ok (.boolean true) ∨
        eval p r = .ok (.boolean false) ∨ eval p r = .ok .null) →
      filterRows p rows
        = .ok (rows.filter (fun r => decide (eval p r = .ok (.boolean true)))) := by
  intro rows
  induction rows with
  | nil => intro _; rfl
  | cons r rest ih =>
    intro h
    have hr := h r (List.mem_cons_self r rest)
    have ht := ih (fun r2 hr2 => h r2 (List.mem_cons_of_mem _ hr2))
    rcases hr with hr | hr | hr
    · simp [filterRows, hr, ht, List.filter_cons]
    · simp [filterRows, hr, ht, List.filter_cons]
    · simp [filterRows, hr, ht, List.filter_cons]

/-- The pull-model Limit yields exactly the first n upstream rows. -/
theorem limitRun_fst (n : Nat) : ∀ up : List Row, (limitRun n up).1 = up.take n := by
  induction n with
  | zero => intro up; rfl
  | succ n ih =>
    intro up
    cases up with
    | nil => rfl
    | cons r t => simp [limitRun, ih]

/-- The pull-model Limit performs at most n upstream pulls. -/
theorem limitRun_snd (n : Nat) : ∀ up : List Row, (limitRun n up).2 ≤ n := by
  induction n with
  | zero => intro up; exact Nat.le_refl 0
  | succ n ih =>
    intro up
    cases up with
    | nil => exact Nat.succ_le_succ (Nat.zero_le n)
    | cons r t =>
      simp only [limitRun]
      exact Nat.succ_le_succ (ih t)

/-- The pull-model Offset/Limit yields the first n rows after the first m. -/
theorem offsetLimitRun_fst (n : Nat) :
    ∀ (m : Nat) (up : List Row),
      (offsetLimitRun n m up).1 = (up.drop m).take n := by
  intro m
  induction m with
  | zero => intro up; exact limitRun_fst n up
  | succ m ih =>
    intro up
    cases up with
    | nil => simp [offsetLimitRun]
    | cons r t => simp [offsetLimitRun, ih]

/-- The pull-model Offset/Limit performs at most m + n upstream pulls. -/
theorem offsetLimitRun_snd (n : Nat) :
    ∀ (m : Nat) (up : List Row), (offsetLimitRun n m up).2 ≤ m + n := by
  intro m
  induction m with
  | zero =>
    intro up
    simpa using limitRun_snd n up
  | succ m ih =>
    intro up
    cases up with
    | nil =>
      simp only [offsetLimitRun]
      omega
    | cons r t =>
      simp only [offsetLimitRun]
      have := ih t
      omega

/-- Planning a SELECT whose WHERE predicate types to anything but Boolean
fails with the fixed Value-kind message. -/
theorem build_nonboolean_where (proj : List (AstExpr × Option String))
    (t : String) (e : AstExpr) (ob : List (AstExpr × Bool))
    (lim off : Option Nat) (cat : Catalog) (sch : Schema) (τ : Option DataType)
    (ht : lookupSchema cat t = some sch)
    (hτ : astType sch e = .ok τ) (hne : τ ≠ some DataType.boolean) :
    build (.select proj (some t) (some e) ob lim off) cat
      = .error (.Value "filter predicate must be a boolean expression") := by
  simp [build, ht, hτ, hne]

/-! The claims. -/

/-- C1: for every valid plan P (one whose execution succeeds), executing the
optimized plan `optimize(P)` against the same store yields exactly the same
result as executing P — the full row sequence is equal, which gives the same
multiset of rows always, and in particular the same order whenever P carries
an explicit ORDER BY node; the multiset formulation is restated as a
conjunct. -/
theorem optimize_preserves_results (p : Plan) (s : Store)
    (h : ∃ rows, execute p s = Except.ok rows) :
    execute (optimize p) s = execute p s ∧
    ∀ rows rows2, execute p s = .ok rows → execute (optimize p) s = .ok rows2 →
      Multiset.ofList rows2 = Multiset.ofList rows := by
  have he := execute_optimize p s h
  refine ⟨he, ?_⟩
  intro rows rows2 h1 h2
  rw [h2, h1] at he
  injection he with h3
  rw [h3]

/-- Witness for C1 at a concrete plan and the fixture store. -/
theorem optimize_preserves_results_witness :
    (∃ rows,
      execute (Plan.filter (.const (.boolean true)) (.scan "movies" none)) store0
        = Except.ok rows) ∧
    execute (optimize (Plan.filter (.const (.boolean true)) (.scan "movies" none)))
        store0
      = execute (Plan.filter (.const (.boolean true)) (.scan "movies" none))
          store0 :=
  ⟨⟨moviesRows, by decide⟩,
   (optimize_preserves_results _ store0 ⟨moviesRows, by decide⟩).1⟩

/-- C2: the optimizer is idempotent: applying it twice gives the same plan as
applying it once. -/
theorem optimize_idempotent (p : Plan) : optimize (optimize p) = optimize p :=
  optimize_idem p

/-- C3: over any upstream whose execution succeeds, a Filter with literal
FALSE or literal NULL predicate emits zero rows, a Filter with literal TRUE
emits every upstream row unchanged, and in general a row passes exactly when
its predicate evaluates to True under three-valued logic (False and
Unknown/NULL are dropped). -/
theorem filter_three_valued (c : Plan) (s : Store) (rows : List Row)
    (h : execute c s = .ok rows) :
    execute (.filter (.const (.boolean false)) c) s = .ok [] ∧
    execute (.filter (.const .null) c) s = .ok [] ∧
    execute (.filter (.const (.boolean true)) c) s = .ok rows ∧
    ∀ p : Expr,
      (∀ r ∈ rows, eval p r = .ok (.boolean true) ∨
        eval p r = .ok (.boolean false) ∨ eval p r = .ok .null) →
      execute (.filter p c) s
        = .ok (rows.filter (fun r => decide (eval p r = .ok (.boolean true)))) := by
  refine ⟨?_, ?_, ?_, ?_⟩
  · simp [execute, h, filterRows_false]
  · simp [execute, h, filterRows_null]
  · simp [execute, h, filterRows_true]
  · intro p hp
    simp only [execute, h, okBind]
    exact filterRows_3vl rows hp

/-- Witness for C3 at the fixture scan. -/
theorem filter_three_valued_witness :
    (execute (Plan.scan "movies" none) store0 = .ok moviesRows) ∧
    execute (.filter (.const (.boolean false)) (.scan "movies" none)) store0
      = .ok [] :=
  ⟨by decide,
   (filter_three_valued (Plan.scan "movies" none) store0 moviesRows
     (by decide)).1⟩

/-- C4: `LIMIT n OFFSET m` over any upstream whose execution succeeds yields
exactly the first n rows after skipping the first m (in upstream order), hence
at most n rows; and in the pull model the upstream is pulled at most m + n
times — it is not drained once n rows have been yielded. -/
theorem limit_offset_semantics (n m : Nat) (c : Plan) (s : Store)
    (rows : List Row) (h : execute c s = .ok rows) :
    execute (.limit n (.offset m c)) s = .ok ((rows.drop m).take n) ∧
    ((rows.drop m).take n).length ≤ n ∧
    (offsetLimitRun n m rows).1 = (rows.drop m).take n ∧
    (offsetLimitRun n m rows).2 ≤ m + n := by
  refine ⟨?_, ?_, offsetLimitRun_fst n m rows, offsetLimitRun_snd n m rows⟩
  · simp [execute, h]
  · exact List.length_take_le n _

/-- Witness for C4 at the fixture scan with LIMIT 2 OFFSET 2. -/
theorem limit_offset_semantics_witness :
    (execute (Plan.scan "movies" none) store0 = .ok moviesRows) ∧
    execute (.limit 2 (.offset 2 (.scan "movies" none))) store0
      = .ok ((moviesRows.drop 2).take 2) :=
  ⟨by decide, (limit_offset_semantics 2 2 _ _ _ (by decide)).1⟩

/-- C5: planning a SELECT whose FROM table resolves but whose WHERE predicate
has a static type other than Boolean fails with a Value-kind error; since
`build` consumes only the catalog of schemas — never a stored row — the
failure happens before any row is read, and the predicate is not coerced. -/
theorem build_rejects_nonboolean_where (proj : List (AstExpr × Option String))
    (t : String) (e : AstExpr) (ob : List (AstExpr × Bool))
    (lim off : Option Nat) (cat : Catalog) (sch : Schema) (τ : Option DataType)
    (ht : lookupSchema cat t = some sch)
    (hτ : astType sch e = .ok τ) (hne : τ ≠ some DataType.boolean) :
    build (.select proj (some t) (some e) ob lim off) cat
      = .error (.Value "filter predicate must be a boolean expression") :=
  build_nonboolean_where proj t e ob lim off cat sch τ ht hτ hne

/-- Witness for C5 at `SELECT * FROM movies WHERE 1`. -/
theorem build_rejects_nonboolean_where_witness :
    (lookupSchema catalog0 "movies" = some moviesSchema) ∧
    (astType moviesSchema (.const (.integer 1)) = .ok (some .integer)) ∧
    ((some DataType.integer : Option DataType) ≠ some DataType.boolean) ∧
    build whereOneStmt catalog0
      = .error (.Value "filter predicate must be a boolean expression") :=
  ⟨rfl, rfl, by decide,
   build_rejects_nonboolean_where [] "movies" (.const (.integer 1)) [] none none
     catalog0 moviesSchema (some .integer) rfl rfl (by decide)⟩

/-- C6: parsing `SELECT 1, 2,` fails with a Parse-kind error (after the
trailing comma another expression is required but the statement ends), and for
every catalog the parse-then-plan pipeline returns that very parse error — the
planner is never invoked on any result of that parse. -/
theorem trailing_comma_parse_error :
    parse "SELECT 1, 2," = .error (.Parse "unexpected end of input") ∧
    ∀ cat : Catalog,
      runStatement "SELECT 1, 2," cat
        = .error (.Parse "unexpected end of input") := by
  have hp : parse "SELECT 1, 2," = .error (.Parse "unexpected end of input") := by
    decide
  refine ⟨hp, ?_⟩
  intro cat
  simp [runStatement, hp]

/-- C7: on the reference fixture, `DELETE FROM movies WHERE released >= 2000`
consumes exactly the three rows released in 2015, 2004 and 2006, reports 3
affected rows, and a subsequent full scan of movies returns exactly the two
remaining rows (released 1979 and 1995) unchanged. -/
theorem delete_where_semantics :
    execute deleteSourcePlan store0 = .ok [movieRow2, movieRow3, movieRow5] ∧
    (movieRow2.getD 3 .null = .integer 2015 ∧
     movieRow3.getD 3 .null = .integer 2004 ∧
     movieRow5.getD 3 .null = .integer 2006) ∧
    runCommand deleteCmd store0 = .ok ([[.integer 3]], store0Deleted) ∧
    execute (.scan "movies" none) store0Deleted = .ok [movieRow1, movieRow4] := by
  refine ⟨by decide, ⟨by decide, by decide, by decide⟩, by decide, by decide⟩

/-- C8: on the reference fixture, `SELECT * FROM movies ORDER BY bluray ASC,
released DESC` returns all five rows (a permutation of the stored rows),
ordered by the boolean bluray column ascending (with the one NULL first, the
placement the spec leaves open) and, on equal bluray values, by released
descending; the produced sequence is sorted under the two-key comparison. -/
theorem order_by_semantics :
    execute orderPlan store0
      = .ok [movieRow3, movieRow1, movieRow2, movieRow5, movieRow4] ∧
    List.Perm [movieRow3, movieRow1, movieRow2, movieRow5, movieRow4]
      moviesRows ∧
    List.Chain'
      (fun a b =>
        keysOrd [true, false] [a.getD 5 .null, a.getD 3 .null]
          [b.getD 5 .null, b.getD 3 .null] ≠ Ordering.gt)
      [movieRow3, movieRow1, movieRow2, movieRow5, movieRow4] := by
  refine ⟨by decide, by decide, ?_⟩
  simp only [List.chain'_cons, List.chain'_singleton, and_true]
  refine ⟨?_, ?_, ?_, ?_⟩ <;> decide

/-- C9 (counterexample): the Display rendering of an Assert error is not the
carried message verbatim — "assertion failed: " is prepended. -/
theorem display_assert_not_verbatim : display (Error.Assert "x") ≠ "x" := by
  decide

/-- C9 (amended): Parse, Value and InvalidData (and Config, Internal) errors
render their message verbatim, while an Assert error renders as
"assertion failed: " followed by the carried message. -/
theorem display_messages (s : String) :
    display (.Parse s) = s ∧ display (.Value s) = s ∧
    display (.InvalidData s) = s ∧ display (.Config s) = s ∧
    display (.Internal s) = s ∧
    display (.Assert s) = "assertion failed: " ++ s :=
  ⟨rfl, rfl, rfl, rfl, rfl, rfl⟩

/-- C10 (counterexample): the bincode (decoding) boundary conversion produces
an InvalidData-kind error, not Internal or Config. -/
theorem fromForeign_bincode_not_internal_config :
    ¬(Error.kind (fromForeign (.bincode "x")) = ErrorKind.internal ∨
      Error.kind (fromForeign (.bincode "x")) = ErrorKind.config) := by
  decide

/-- C10 (amended): every foreign failure is converted by the boundary mapping
into one of the fixed kinds Internal, Config, InvalidData, Value or Parse —
callers never observe a foreign error type; I/O, channel and locking errors
map to Internal, while decoding errors (bincode, serde) map to InvalidData. -/
theorem foreign_mapped_to_fixed_kinds :
    (∀ f : Foreign,
      Error.kind (fromForeign f) = ErrorKind.internal ∨
      Error.kind (fromForeign f) = ErrorKind.config ∨
      Error.kind (fromForeign f) = ErrorKind.invalidData ∨
      Error.kind (fromForeign f) = ErrorKind.value ∨
      Error.kind (fromForeign f) = ErrorKind.parse) ∧
    (∀ m, Error.kind (fromForeign (.ioError m)) = ErrorKind.internal) ∧
    (∀ m,
      Error.kind (fromForeign (.channelRecv m)) = ErrorKind.internal ∧
      Error.kind (fromForeign (.channelSend m)) = ErrorKind.internal ∧
      Error.kind (fromForeign (.channelTryRecv m)) = ErrorKind.internal ∧
      Error.kind (fromForeign (.channelTrySend m)) = ErrorKind.internal) ∧
    (∀ m, Error.kind (fromForeign (.lockPoison m)) = ErrorKind.internal) ∧
    (∀ m, Error.kind (fromForeign (.bincode m)) = ErrorKind.invalidData) := by
  refine ⟨?_, fun m => rfl, fun m => ⟨rfl, rfl, rfl, rfl⟩, fun m => rfl,
    fun m => rfl⟩
  intro f
  cases f <;> simp [fromForeign, Error.kind]

end ToyDB
